import Mathlib

/-!
# Verification of the regicide-tui combat engine

Shallow embedding of the combat engine of the `regicide-tui` repository
(`src/card.rs`, `src/enemy.rs`, `src/game.rs`), together with theorems
settling the frozen claims about its specification.

Conventions of the embedding:
* `u8` fields are modelled as `Nat`; Rust's wrapping additions and
  multiplications are written with an explicit `% 256`
  (`u8add`, `u8mul2`); `saturating_sub` is `Nat` subtraction.
* Fallible operations return `Except String`, mirroring
  `Result<_, String>`; since the Rust methods mutate `self` even on some
  error paths, every public operation returns the (possibly mutated)
  game state alongside the result.
* The `panic!` in `Enemy::new` is modelled by `Option`: `Enemy.new?`
  returns `none` exactly where the Rust code panics, and the operations
  that can transitively reach that panic return `Option`.
* Shuffling (`Deck::shuffle`, used by the Hearts power and by deck
  construction) draws from the process RNG; it is modelled by an
  explicit shuffler parameter `sh : List Card → List Card`, with the
  hypothesis `IsPerm sh` (every output is a permutation of the input)
  where a theorem needs it.
* The game log (`game_log`) carries wall-clock timestamps and is pure
  presentation; it is omitted from the state.
* `deck.rs` and `player.rs` are not part of the sources available under
  `src/`; the `Deck` and `Player` operations are modelled from the
  specification, as marked on each definition.
-/

/-- From `src/card.rs`: the four suits. -/
inductive Suit : Type
  | Hearts
  | Diamonds
  | Clubs
  | Spades
deriving DecidableEq, Repr

/-- From `src/card.rs`: the thirteen ranks plus the Jester wildcard. -/
inductive Rank : Type
  | Two
  | Three
  | Four
  | Five
  | Six
  | Seven
  | Eight
  | Nine
  | Ten
  | Ace
  | Jack
  | Queen
  | King
  | Jester
deriving DecidableEq, Repr

/-- From `src/card.rs`, `Rank::value`: the base value of a rank. -/
def Rank.value : Rank → Nat
  | .Ace => 1
  | .Two => 2
  | .Three => 3
  | .Four => 4
  | .Five => 5
  | .Six => 6
  | .Seven => 7
  | .Eight => 8
  | .Nine => 9
  | .Ten => 10
  | .Jack => 10
  | .Queen => 15
  | .King => 20
  | .Jester => 0

/-- From `src/card.rs`: a playing card. -/
structure Card : Type where
  suit : Suit
  rank : Rank
deriving DecidableEq, Repr

/-- From `src/card.rs`, `Card::value`. -/
def Card.value (c : Card) : Nat := c.rank.value

/-- From `src/card.rs`, `Card::is_companion` (Ace). -/
def Card.isCompanion (c : Card) : Bool := c.rank = Rank.Ace

/-- From `src/card.rs`, `Card::is_jester`. -/
def Card.isJester (c : Card) : Bool := c.rank = Rank.Jester

/-- Wrapping `u8` addition (`a + b` on `u8`, release semantics). -/
def u8add (a b : Nat) : Nat := (a + b) % 256

/-- Wrapping `u8` doubling (`a *= 2` on `u8`, release semantics). -/
def u8mul2 (a : Nat) : Nat := (2 * a) % 256

/-- Modelled from the spec: `deck.rs` is not under `src/`.  A deck is an
ordered sequence of cards, front = "top" (next draw). -/
structure Deck : Type where
  cards : List Card
deriving DecidableEq, Repr

/-- Modelled from the spec: `Deck::draw` removes and returns the top
card, or signals exhaustion with no card. -/
def Deck.draw (d : Deck) : Option (Card × Deck) :=
  match d.cards with
  | [] => none
  | c :: rest => some (c, ⟨rest⟩)

/-- Modelled from the spec: `Deck::draw_multiple(n)` draws up to `n`
cards from the top, stopping early if exhausted. -/
def Deck.drawMultiple (d : Deck) (n : Nat) : List Card × Deck :=
  (d.cards.take n, ⟨d.cards.drop n⟩)

/-- Modelled from the spec: `Deck::add_to_top`. -/
def Deck.addToTop (d : Deck) (c : Card) : Deck := ⟨c :: d.cards⟩

/-- Modelled from the spec: `Deck::add_multiple_to_bottom`. -/
def Deck.addMultipleToBottom (d : Deck) (cs : List Card) : Deck :=
  ⟨d.cards ++ cs⟩

/-- Modelled from the spec: `Deck::len`. -/
def Deck.size (d : Deck) : Nat := d.cards.length

/-- The four suits, in declaration order. -/
def allSuits : List Suit := [.Hearts, .Diamonds, .Clubs, .Spades]

/-- The ten player-deck ranks, Ace through Ten. -/
def tavernRanks : List Rank :=
  [.Ace, .Two, .Three, .Four, .Five, .Six, .Seven, .Eight, .Nine, .Ten]

/-- Modelled from the spec: `Deck::create_castle_deck` builds 12 cards
in three 4-card layers, Jacks on top, then Queens, Kings on the bottom,
with a random permutation of the 4 suits within each layer.  The three
suit permutations are passed explicitly. -/
def createCastleDeck (p1 p2 p3 : List Suit) : Deck :=
  ⟨p1.map (fun s => Card.mk s .Jack) ++ p2.map (fun s => Card.mk s .Queen)
    ++ p3.map (fun s => Card.mk s .King)⟩

/-- Modelled from the spec: `Deck::create_tavern_deck(n)` concatenates
all Ace–Ten cards of all 4 suits (40 cards) plus `n` Jester cards, then
shuffles the whole sequence (the shuffler is passed explicitly). -/
def createTavernDeck (sh : List Card → List Card) (jesters : Nat) : Deck :=
  ⟨sh ((allSuits.flatMap fun s => tavernRanks.map fun r => Card.mk s r)
      ++ List.replicate jesters (Card.mk .Hearts .Jester))⟩

/-- A shuffler that only permutes its input (what `Deck::shuffle`
guarantees). -/
def IsPerm (sh : List Card → List Card) : Prop := ∀ l, (sh l).Perm l

/-- Modelled from the spec: `player.rs` is not under `src/`.  The player
owns a bounded hand of cards and a name. -/
structure Player : Type where
  name : String
  hand : List Card
  max_hand_size : Nat
deriving DecidableEq, Repr

/-- Modelled from the spec: `Player::hand_size`. -/
def Player.handSize (p : Player) : Nat := p.hand.length

/-- Modelled from the spec: `Player::is_hand_full`. -/
def Player.isHandFull (p : Player) : Bool :=
  p.max_hand_size ≤ p.hand.length

/-- Modelled from the spec: `Player::draw_card` adds one drawn card to
the hand. -/
def Player.drawCard (p : Player) (c : Card) : Player :=
  { p with hand := p.hand ++ [c] }

/-- Modelled from the spec: `Player::draw_multiple` adds the drawn cards
to the hand. -/
def Player.drawMultiple (p : Player) (cs : List Card) : Player :=
  { p with hand := p.hand ++ cs }

/-- Modelled from the spec: `Player::play_cards(indices)` removes the
selected positions from the hand and returns the selected cards in index
order (indices are 0-based positions into the hand; out-of-range indices
resolve to nothing; a duplicated position is removed once). -/
def Player.playHand (p : Player) (idx : List Nat) : List Card × Player :=
  (idx.filterMap (fun i => p.hand.get? i),
   { p with
      hand := ((p.hand.enum.filter fun ic => ¬ ic.1 ∈ idx).map Prod.snd) })

/-- Modelled from the spec: `Player::calculate_value(indices)` sums the
values of the selected hand cards. -/
def Player.calculateValue (p : Player) (idx : List Nat) : Nat :=
  ((idx.filterMap (fun i => p.hand.get? i)).map Card.value).sum

/-- From `src/enemy.rs`: a face-card combatant. -/
structure Enemy : Type where
  card : Card
  max_hp : Nat
  current_hp : Nat
  attack : Nat
  immunity_cancelled : Bool
deriving DecidableEq, Repr

/-- From `src/enemy.rs`, `Enemy::new`: `(max_hp, attack)` fixed by rank;
the `panic!` on a non-face card is modelled as `none`. -/
def Enemy.new? (card : Card) : Option Enemy :=
  match card.rank with
  | .Jack => some ⟨card, 20, 20, 10, false⟩
  | .Queen => some ⟨card, 30, 30, 15, false⟩
  | .King => some ⟨card, 40, 40, 20, false⟩
  | _ => none

/-- From `src/enemy.rs`, `Enemy::is_immune_to`. -/
def Enemy.isImmuneTo (e : Enemy) (s : Suit) : Bool :=
  ¬ e.immunity_cancelled ∧ e.card.suit = s

/-- From `src/enemy.rs`, `Enemy::take_damage` (saturating). -/
def Enemy.takeDamage (e : Enemy) (damage : Nat) : Enemy :=
  { e with current_hp := e.current_hp - damage }

/-- From `src/enemy.rs`, `Enemy::is_defeated`. -/
def Enemy.isDefeated (e : Enemy) : Bool := e.current_hp = 0

/-- From `src/enemy.rs`, `Enemy::defeated_exactly`. -/
def Enemy.defeatedExactly (e : Enemy) (total_damage : Nat) : Bool :=
  total_damage = e.max_hp

/-- From `src/enemy.rs`, `Enemy::cancel_immunity`. -/
def Enemy.cancelImmunity (e : Enemy) : Enemy :=
  { e with immunity_cancelled := true }

/-- From `src/enemy.rs`, `Enemy::get_attack_after_shields`
(saturating). -/
def Enemy.getAttackAfterShields (e : Enemy) (shield_value : Nat) : Nat :=
  e.attack - shield_value

/-- From `src/game.rs`: the game status. -/
inductive GameState : Type
  | Playing
  | Victory
  | Defeat (reason : String)
deriving DecidableEq, Repr

/-- From `src/game.rs`: the aggregate game state (the wall-clock game
log is omitted). -/
structure Game : Type where
  castle_deck : Deck
  tavern_deck : Deck
  discard_pile : List Card
  current_enemy : Option Enemy
  player : Player
  played_cards : List Card
  shield_value : Nat
  total_damage : Nat
  game_state : GameState
  jester_count : Nat
  jesters_used : Nat
  jester_played_this_turn : Bool
deriving DecidableEq, Repr

/-- From `src/game.rs`, `Game::reveal_next_enemy`: draw the next castle
card into a fresh enemy (resetting the per-encounter counters), or
declare Victory when the castle deck is empty.  `none` models the panic
of `Enemy::new` on a non-face card. -/
def revealNextEnemy (g : Game) : Option Game :=
  match g.castle_deck.draw with
  | some (card, rest) =>
      (Enemy.new? card).map fun e =>
        { g with
            castle_deck := rest
            current_enemy := some e
            shield_value := 0
            total_damage := 0
            played_cards := [] }
  | none => some { g with game_state := .Victory }

/-- From `src/game.rs`, `Game::validate_play`: the local `cards` vector
(indices resolved against the hand, out-of-range indices dropped). -/
def selectedCards (g : Game) (card_indices : List Nat) : List Card :=
  card_indices.filterMap fun i => g.player.hand.get? i

/-- From `src/game.rs`, `Game::validate_play`: the local `ace_count`. -/
def aceCount (cards : List Card) : Nat :=
  (cards.filter Card.isCompanion).length

/-- From `src/game.rs`, `Game::validate_play`, after the index checks:
Jester alone; single card; Ace pairing (for the resolved `cards` of a
nonempty index list the length is at least 1, so the Rust cascade
`len == 2 && aces == 1 | len == 2 && aces == 2 | len > 2` amounts to
accepting exactly length 2 when an Ace is present); then the 2–4 card
same-rank combo with total at most 10 (the `[]` case is unreachable:
`cards[0]` in Rust). -/
def validateCombo (cards : List Card) : Except String Unit :=
  if cards.any Card.isJester then
    if 1 < cards.length then .error "Jester must be played alone"
    else .ok ()
  else if cards.length = 1 then .ok ()
  else if 0 < aceCount cards ∧ ¬ (cards.length = 2) then
    .error "Ace can only be paired with one other card"
  else if 0 < aceCount cards then .ok ()
  else if 4 < cards.length then
    .error "Cannot play more than 4 cards at once"
  else
    match cards with
    | [] => .ok ()
    | c0 :: _ =>
      if ¬ cards.all (fun c => c.rank = c0.rank) then
        .error "Combo cards must all have the same rank (or use Ace + 1 card)"
      else if 10 < (cards.map Card.value).sum then
        .error "Combo total must be 10 or less"
      else .ok ()

/-- From `src/game.rs`, `Game::validate_play`. -/
def validatePlay (g : Game) (card_indices : List Nat) : Except String Unit :=
  if card_indices.isEmpty then .error "Must select at least one card"
  else if (selectedCards g card_indices).length ≠ card_indices.length then
    .error "Invalid card indices"
  else validateCombo (selectedCards g card_indices)

/-- From `src/game.rs`, the Diamonds draw loop inside
`apply_suit_powers`: draw while cards remain to draw, the hand is not
full and the tavern deck is not exhausted. -/
def drawLoop : Nat → Player → Deck → Player × Deck
  | 0, p, d => (p, d)
  | n + 1, p, d =>
    if p.isHandFull then (p, d)
    else
      match d.cards with
      | [] => (p, d)
      | c :: rest => drawLoop n (p.drawCard c) ⟨rest⟩

/-- From `src/game.rs`, `Game::apply_suit_powers`: the per-suit power
collected by the loop over the played cards — the combo's whole
`attack_value` when a card of the suit is present and the enemy is not
immune to it, else 0. -/
def suitPower (cards : List Card) (e : Enemy) (s : Suit) (attack_value : Nat) :
    Nat :=
  if (cards.any fun c => c.suit = s) ∧ ¬ e.isImmuneTo s then attack_value
  else 0

/-- From `src/game.rs`, `Game::apply_suit_powers`, the Hearts step: move
`min(power, discard len)` cards from a freshly shuffled copy of the
discard pile to the bottom of the tavern deck. -/
def heartsHeal (sh : List Card → List Card) (g : Game) (power : Nat) : Game :=
  if 0 < power then
    if 0 < min power g.discard_pile.length then
      { g with
          discard_pile := (sh g.discard_pile).drop (min power g.discard_pile.length)
          tavern_deck := g.tavern_deck.addMultipleToBottom
            ((sh g.discard_pile).take (min power g.discard_pile.length)) }
    else g
  else g

/-- From `src/game.rs`, `Game::apply_suit_powers`, the Diamonds step:
draw up to `power` cards into the hand, stopping when the hand is full
or the tavern deck is exhausted. -/
def diamondsDraw (g : Game) (power : Nat) : Game :=
  if 0 < power then
    { g with
        player := (drawLoop power g.player g.tavern_deck).1
        tavern_deck := (drawLoop power g.player g.tavern_deck).2 }
  else g

/-- From `src/game.rs`, `Game::apply_suit_powers`, the Spades step: add
`power` to the cumulative shield. -/
def spadesShield (g : Game) (power : Nat) : Game :=
  if 0 < power then { g with shield_value := u8add g.shield_value power }
  else g

/-- From `src/game.rs`, `Game::apply_suit_powers`: resolve the suit
powers of the combo against the current enemy, Hearts (heal) first, then
Diamonds (draw), then Clubs (damage doubling, resolved later in
`deal_damage`; here it only logs) and Spades (shield). -/
def applySuitPowers (sh : List Card → List Card) (g : Game)
    (cards : List Card) (attack_value : Nat) : Except String Game :=
  match g.current_enemy with
  | none => .error "No current enemy"
  | some e =>
    .ok (spadesShield
          (diamondsDraw (heartsHeal sh g (suitPower cards e .Hearts attack_value))
            (suitPower cards e .Diamonds attack_value))
          (suitPower cards e .Spades attack_value))

/-- From `src/game.rs`, `Game::enemy_defeated`, after
`current_enemy.take()` (the caller passes the taken enemy `e` and the
state whose `current_enemy` is already `none`): exact total damage
captures the enemy onto the tavern deck, otherwise it goes to the
discard pile; all played cards are discarded; then the next enemy is
revealed. -/
def enemyDefeated (g : Game) (e : Enemy) : Option Game :=
  let g1 :=
    if e.defeatedExactly g.total_damage then
      { g with tavern_deck := g.tavern_deck.addToTop e.card }
    else
      { g with discard_pile := g.discard_pile ++ [e.card] }
  revealNextEnemy
    { g1 with discard_pile := g1.discard_pile ++ g1.played_cards, played_cards := [] }

/-- From `src/game.rs`, `Game::deal_damage`: whether a card of this
combo is a non-immune Clubs card (checked against the current enemy). -/
def clubsActive (e : Enemy) (cards : List Card) : Bool :=
  cards.any fun c => c.suit = Suit.Clubs ∧ ¬ e.isImmuneTo .Clubs

/-- From `src/game.rs`, `Game::deal_damage`: double the attack iff a
card of this combo is a non-immune Clubs card, accumulate
`total_damage`, apply saturating damage, and resolve defeat. -/
def dealDamage (g : Game) (attack_value : Nat) (cards : List Card) :
    Option (Except String Game) :=
  match g.current_enemy with
  | none => some (.error "No current enemy")
  | some e =>
    let atk := if clubsActive e cards then u8mul2 attack_value else attack_value
    let e1 := e.takeDamage atk
    let g1 := { g with total_damage := u8add g.total_damage atk,
                       current_enemy := some e1 }
    if e1.isDefeated then
      (enemyDefeated { g1 with current_enemy := none } e1).map .ok
    else some (.ok g1)

/-- From `src/game.rs`, `Game::play_cards`, the Jester branch: the
retroactive shield — the summed value of the Spades cards already in
`played_cards` (blocked earlier by the Spades enemy's immunity). -/
def spadesRetro (g : Game) : Nat :=
  ((g.played_cards.filter fun c : Card => c.suit = Suit.Spades).map
    Card.value).sum

/-- From `src/game.rs`, `Game::play_cards`: reset the per-turn Jester
flag, validate, remove the cards from hand, then either run the Jester
branch (cancel immunity, retroactive Spades shield, discard the Jester)
or resolve suit powers, commit the combo to `played_cards` and deal
damage.  Returns whether the current enemy changed. -/
def playCards (sh : List Card → List Card) (g0 : Game) (card_indices : List Nat) :
    Option (Except String Bool × Game) :=
  let g := { g0 with jester_played_this_turn := false }
  match validatePlay g card_indices with
  | .error e => some (.error e, g)
  | .ok _ =>
    let sel := g.player.playHand card_indices
    let g := { g with player := sel.2 }
    match sel.1 with
    | [] => some (.error "Failed to play cards", g)
    | c0 :: rest =>
      let cards := c0 :: rest
      let attackValue := (cards.map Card.value).sum
      if c0.isJester then
        let g1 :=
          match g.current_enemy with
          | some e =>
            let enemySuit := e.card.suit
            let g' := { g with current_enemy := some e.cancelImmunity }
            if enemySuit = Suit.Spades then
              if 0 < spadesRetro g' then
                { g' with shield_value := u8add g'.shield_value (spadesRetro g') }
              else g'
            else g'
          | none => g
        some (.ok false,
          { g1 with discard_pile := g1.discard_pile ++ cards,
                    jester_played_this_turn := true })
      else
        let enemyBefore := g.current_enemy.map fun e => e.card
        match applySuitPowers sh g cards attackValue with
        | .error e => some (.error e, g)
        | .ok g1 =>
          let g2 := { g1 with played_cards := g1.played_cards ++ cards }
          match dealDamage g2 attackValue cards with
          | none => none
          | some (.error e) => some (.error e, g2)
          | some (.ok g3) =>
            some (.ok (decide (enemyBefore ≠ g3.current_enemy.map fun e => e.card)), g3)

/-- From `src/game.rs`, `Game::yield_turn`: reset the per-turn Jester
flag; always succeeds. -/
def yieldTurn (g : Game) : Except String Unit × Game :=
  (.ok (), { g with jester_played_this_turn := false })

/-- From `src/game.rs`, `Game::enemy_attack`: the enemy's attack net of
shields; fails when there is no current enemy; mutates nothing. -/
def enemyAttack (g : Game) : Except String Nat × Game :=
  match g.current_enemy with
  | none => (.error "No current enemy", g)
  | some e => (.ok (e.getAttackAfterShields g.shield_value), g)

/-- From `src/game.rs`, `Game::discard_to_survive`: fail (naming the
required and actual totals) when the selected value is below the
enemy's post-shield attack; otherwise move the selection to the discard
pile. -/
def discardToSurvive (g : Game) (card_indices : List Nat) :
    Except String Unit × Game :=
  let value := g.player.calculateValue card_indices
  match g.current_enemy with
  | none => (.error "No current enemy", g)
  | some e =>
    let required := e.getAttackAfterShields g.shield_value
    if value < required then
      (.error s!"Not enough value (need {required}, have {value})", g)
    else
      let sel := g.player.playHand card_indices
      (.ok (), { g with player := sel.2, discard_pile := g.discard_pile ++ sel.1 })

/-- From `src/game.rs`, `Game::use_jester`: fail once `jesters_used`
reaches `jester_count`; otherwise discard the whole hand, refill from
the tavern deck up to 8 cards, and increment `jesters_used`. -/
def useJester (g : Game) : Except String Unit × Game :=
  if g.jester_count ≤ g.jesters_used then (.error "No Jesters remaining", g)
  else
    let discarded := g.player.hand
    let drawn := g.tavern_deck.drawMultiple 8
    (.ok (),
      { g with
          player := (Player.drawMultiple { g.player with hand := [] } drawn.1)
          discard_pile := g.discard_pile ++ discarded
          tavern_deck := drawn.2
          jesters_used := u8add g.jesters_used 1 })

/-- From `src/game.rs`, `Game::new_solo`: build the tavern deck (0
Jesters) and castle deck, draw the initial 8-card hand, and reveal the
first enemy. -/
def newSolo (sh : List Card → List Card) (p1 p2 p3 : List Suit) : Option Game :=
  let tavern := createTavernDeck sh 0
  let initial := tavern.drawMultiple 8
  let player : Player := (Player.mk "Hero" [] 8).drawMultiple initial.1
  revealNextEnemy
    { castle_deck := createCastleDeck p1 p2 p3
      tavern_deck := initial.2
      discard_pile := []
      current_enemy := none
      player := player
      played_cards := []
      shield_value := 0
      total_damage := 0
      game_state := .Playing
      jester_count := 2
      jesters_used := 0
      jester_played_this_turn := false }

/-- One move of the engine through any public mutating operation.  The
shufflers really permute, per `Deck::shuffle`. -/
inductive Step : Game → Game → Prop
  | play (g : Game) (sh : List Card → List Card) (idx : List Nat)
      (r : Except String Bool) (g' : Game) (hsh : IsPerm sh)
      (h : playCards sh g idx = some (r, g')) : Step g g'
  | yieldT (g : Game) : Step g (yieldTurn g).2
  | attack (g : Game) : Step g (enemyAttack g).2
  | discard (g : Game) (idx : List Nat) : Step g (discardToSurvive g idx).2
  | jester (g : Game) : Step g (useJester g).2

/-- The states reachable from a fresh solo game through the public
operations. -/
inductive Reachable : Game → Prop
  | base (sh : List Card → List Card) (p1 p2 p3 : List Suit) (g : Game)
      (hsh : IsPerm sh) (h1 : p1.Perm allSuits) (h2 : p2.Perm allSuits)
      (h3 : p3.Perm allSuits) (h : newSolo sh p1 p2 p3 = some g) : Reachable g
  | step (g g' : Game) (hg : Reachable g) (hs : Step g g') : Reachable g'

/-- A base game state used to instantiate theorems at concrete inputs. -/
def emptyGame : Game :=
  { castle_deck := ⟨[]⟩
    tavern_deck := ⟨[]⟩
    discard_pile := []
    current_enemy := none
    player := { name := "Hero", hand := [], max_hand_size := 8 }
    played_cards := []
    shield_value := 0
    total_damage := 0
    game_state := .Playing
    jester_count := 2
    jesters_used := 0
    jester_played_this_turn := false }

/-- A game whose hand is the given list (solo hand bound 8). -/
def gameWithHand (hand : List Card) : Game :=
  { emptyGame with player := { name := "Hero", hand := hand, max_hand_size := 8 } }

/-- The acceptance rule of claim C5, stated on the resolved cards in the
spec's words: a lone Jester; any single non-Jester card; one Ace plus
exactly one other card (including two Aces); or 2–4 cards of identical
rank whose values sum to at most 10. -/
def comboAcceptedSpec (cards : List Card) : Bool :=
  if cards.any Card.isJester then cards.length == 1
  else if cards.length == 1 then true
  else if cards.any Card.isCompanion then cards.length == 2
  else
    decide (2 ≤ cards.length) && decide (cards.length ≤ 4) &&
      (match cards.head? with
       | some c0 => cards.all fun c => c.rank == c0.rank
       | none => false) &&
      decide ((cards.map Card.value).sum ≤ 10)

/-- From `src/game.rs`, `Game::deal_damage`: the attack actually applied — doubled exactly when this combo holds a non-immune Clubs card. -/
def comboDamage (e : Enemy) (cards : List Card) (a : Nat) : Nat :=
  if clubsActive e cards then u8mul2 a else a

/-- The safety invariant of claim C10: every castle card is a face card, and the current enemy (if any) carries one of the three fixed stat pairs. -/
def GameInv (g : Game) : Prop :=
  (∀ c ∈ g.castle_deck.cards,
    c.rank = .Jack ∨ c.rank = .Queen ∨ c.rank = .King) ∧
  (∀ e, g.current_enemy = some e →
    (e.max_hp = 20 ∧ e.attack = 10) ∨ (e.max_hp = 30 ∧ e.attack = 15) ∨
      (e.max_hp = 40 ∧ e.attack = 20))

/-- No Jester-rank card in any live card zone, and the current enemy's
card is not a Jester (the solo deal contains no Jester cards). -/
def NoJesterInv (g : Game) : Prop :=
  (∀ c ∈ g.player.hand, c.rank ≠ Rank.Jester) ∧
  (∀ c ∈ g.tavern_deck.cards, c.rank ≠ Rank.Jester) ∧
  (∀ c ∈ g.discard_pile, c.rank ≠ Rank.Jester) ∧
  (∀ c ∈ g.played_cards, c.rank ≠ Rank.Jester) ∧
  (∀ c ∈ g.castle_deck.cards, c.rank ≠ Rank.Jester) ∧
  (∀ e, g.current_enemy = some e → e.card.rank ≠ Rank.Jester)

/-- The concrete fresh solo game obtained with the identity shuffler and
the suits in declaration order in every castle layer. -/
def g0solo : Game := (newSolo id allSuits allSuits allSuits).getD emptyGame

/-! ## Helper lemmas on index resolution -/

/-- When every index is in range, resolving indices against the hand
loses nothing. -/
theorem length_filterMap_get? (l : List Card) (idx : List Nat)
    (h : ∀ i ∈ idx, i < l.length) :
    (idx.filterMap fun i => l.get? i).length = idx.length := by
  induction idx with
  | nil => rfl
  | cons i t ih =>
    have hi : i < l.length := h i (List.mem_cons_self i t)
    rw [List.filterMap_cons, List.get?_eq_get hi]
    simp only [List.length_cons]
    rw [ih fun j hj => h j (List.mem_cons_of_mem i hj)]

/-- A successful validation implies a nonempty index list that resolved
completely, and that the combo check passed. -/
theorem validatePlay_ok_parts (g : Game) (idx : List Nat)
    (h : validatePlay g idx = .ok ()) :
    ¬ idx.isEmpty ∧ (selectedCards g idx).length = idx.length ∧
      validateCombo (selectedCards g idx) = .ok () := by
  unfold validatePlay at h
  by_cases he : idx.isEmpty
  · rw [if_pos he] at h; cases h
  · rw [if_neg he] at h
    by_cases hl : (selectedCards g idx).length ≠ idx.length
    · rw [if_pos hl] at h; cases h
    · rw [if_neg hl] at h
      exact ⟨he, not_ne_iff.mp hl, h⟩

/-- A successful validation yields a nonempty selection. -/
theorem validatePlay_ok_nonempty (g : Game) (idx : List Nat)
    (h : validatePlay g idx = .ok ()) :
    selectedCards g idx ≠ [] := by
  obtain ⟨he, hl, -⟩ := validatePlay_ok_parts g idx h
  intro hnil
  rw [hnil] at hl
  cases idx with
  | nil => exact he rfl
  | cons i t => simp at hl

/-- When some index is out of range, resolution drops it. -/
theorem length_selected_lt (l : List Card) (idx : List Nat)
    (h : ∃ i ∈ idx, l.length ≤ i) :
    (idx.filterMap fun i => l.get? i).length < idx.length := by
  induction idx with
  | nil => simp at h
  | cons j t ih =>
    rw [List.filterMap_cons]
    by_cases hj : l.length ≤ j
    · rw [List.get?_eq_none.mpr hj]
      have hle : (t.filterMap fun i => l.get? i).length ≤ t.length :=
        List.length_filterMap_le _ t
      simpa using Nat.lt_succ_of_le hle
    · have hjr : j < l.length := Nat.lt_of_not_le hj
      rw [List.get?_eq_get hjr]
      have ht : ∃ i ∈ t, l.length ≤ i := by
        obtain ⟨i, hi, hli⟩ := h
        rcases List.mem_cons.mp hi with rfl | hit
        · exact absurd hli hj
        · exact ⟨i, hit, hli⟩
      simpa using Nat.succ_lt_succ (ih ht)

/-- `ace_count` is positive exactly when an Ace is selected. -/
theorem aceCount_pos (cards : List Card) :
    0 < aceCount cards ↔ cards.any Card.isCompanion = true := by
  unfold aceCount
  rw [List.length_pos, Ne, List.filter_eq_nil_iff, List.any_eq_true]
  push_neg
  simp

/-- C4 counterexample: the claim says a list containing the same index
twice is rejected; on the code, `[0, 0]` against a one-card hand
resolves both occurrences to the same card and `validate_play`
accepts. -/
theorem C4_counterexample :
    validatePlay (gameWithHand [⟨Suit.Hearts, Rank.Five⟩]) [0, 0] =
      .ok () := rfl

/-- C4 (amended): `validate_play` fails on an empty index list and when
any index is out of range of the hand; but duplicate in-range indices
are not rejected — a duplicated index resolves each occurrence to the
same card, and for any nonempty all-in-range index list (duplicated or
not) the verdict is exactly the combo check of the resolved cards. -/
theorem C4_index_validation (g : Game) (idx : List Nat) :
    (idx = [] → validatePlay g idx = .error "Must select at least one card") ∧
    ((∃ i ∈ idx, g.player.hand.length ≤ i) →
      validatePlay g idx = .error "Invalid card indices") ∧
    (idx ≠ [] → (∀ i ∈ idx, i < g.player.hand.length) →
      validatePlay g idx = validateCombo (selectedCards g idx)) := by
  refine ⟨?_, ?_, ?_⟩
  · rintro rfl; rfl
  · intro hout
    have hne : idx ≠ [] := by
      rintro rfl; obtain ⟨i, hi, -⟩ := hout; exact absurd hi (List.not_mem_nil i)
    have hlt : (selectedCards g idx).length < idx.length :=
      length_selected_lt _ _ hout
    unfold validatePlay
    rw [if_neg (by simpa using hne), if_pos (Nat.ne_of_lt hlt)]
  · intro hne hin
    have hlen : (selectedCards g idx).length = idx.length :=
      length_filterMap_get? _ _ hin
    unfold validatePlay
    rw [if_neg (by simpa using hne), if_neg (not_ne_iff.mpr hlen)]

/-- C4 witness: the amended behaviour at concrete inputs — an empty
selection and an out-of-range index are rejected. -/
theorem C4_witness :
    validatePlay (gameWithHand [⟨Suit.Hearts, Rank.Five⟩]) [] =
        .error "Must select at least one card" ∧
      validatePlay (gameWithHand [⟨Suit.Hearts, Rank.Five⟩]) [1] =
        .error "Invalid card indices" :=
  ⟨(C4_index_validation (gameWithHand [⟨Suit.Hearts, Rank.Five⟩]) []).1 rfl,
   (C4_index_validation (gameWithHand [⟨Suit.Hearts, Rank.Five⟩]) [1]).2.1
    ⟨1, by decide, by decide⟩⟩

/-- On a nonempty selection the code's combo check accepts exactly the
combos of claim C5. -/
theorem validateCombo_iff_spec (cards : List Card) (hne : cards ≠ []) :
    validateCombo cards = .ok () ↔ comboAcceptedSpec cards = true := by
  obtain ⟨c0, t, rfl⟩ := List.exists_cons_of_ne_nil hne
  have hax : 0 < aceCount (c0 :: t) ↔ (c0 :: t).any Card.isCompanion = true :=
    aceCount_pos _
  cases t with
  | nil =>
    unfold validateCombo comboAcceptedSpec
    simp only [List.head?_cons]
    split_ifs <;>
      simp_all [List.all_eq_true, beq_iff_eq, Bool.and_eq_true,
        decide_eq_true_eq, List.length_cons, List.length_pos]
  | cons c1 t =>
    unfold validateCombo comboAcceptedSpec
    simp only [List.head?_cons]
    split_ifs <;>
      simp_all [List.all_eq_true, beq_iff_eq, Bool.and_eq_true,
        decide_eq_true_eq, List.length_cons, List.length_pos]
    all_goals (intros; omega)

/-- C5: over nonempty, duplicate-free, in-range selections,
`validate_play` accepts exactly the plays the claim lists: a lone
Jester; any single non-Jester card; one Ace plus exactly one other card
(including two Aces, and rejecting an Ace with two or more others); and
2–4 cards of identical rank with value total at most 10. -/
theorem C5_validate_characterization (g : Game) (idx : List Nat)
    (h1 : idx ≠ []) (h2 : idx.Nodup)
    (h3 : ∀ i ∈ idx, i < g.player.hand.length) :
    validatePlay g idx = .ok () ↔
      comboAcceptedSpec (selectedCards g idx) = true := by
  have hlen : (selectedCards g idx).length = idx.length :=
    length_filterMap_get? _ _ h3
  have hne : selectedCards g idx ≠ [] := by
    intro hnil
    rw [hnil] at hlen
    cases idx with
    | nil => exact h1 rfl
    | cons i t => simp at hlen
  unfold validatePlay
  rw [if_neg (by simpa using h1), if_neg (not_ne_iff.mpr hlen)]
  exact validateCombo_iff_spec _ hne

/-- C5 witness: the claim's own examples — `{3♥,3♣,3♦}` (total 9) is
accepted and `{6♥,6♣}` (total 12) is rejected. -/
theorem C5_witness :
    validatePlay
        (gameWithHand [⟨Suit.Hearts, Rank.Three⟩, ⟨Suit.Clubs, Rank.Three⟩,
          ⟨Suit.Diamonds, Rank.Three⟩]) [0, 1, 2] = .ok () ∧
      validatePlay (gameWithHand [⟨Suit.Hearts, Rank.Six⟩,
          ⟨Suit.Clubs, Rank.Six⟩]) [0, 1] ≠ .ok () :=
  ⟨(C5_validate_characterization _ [0, 1, 2] (by decide) (by decide)
      (by decide)).mpr (by decide),
   fun h =>
    by cases (C5_validate_characterization _ [0, 1] (by decide) (by decide)
        (by decide)).mp h⟩

/-- Revealing on an empty castle deck declares Victory and changes
nothing else. -/
theorem revealNextEnemy_empty (g : Game) (h : g.castle_deck.cards = []) :
    revealNextEnemy g = some { g with game_state := .Victory } := by
  unfold revealNextEnemy Deck.draw
  rw [h]

/-- Revealing with a nonempty castle deck draws its top card into a
fresh enemy and resets the per-encounter counters. -/
theorem revealNextEnemy_cons (g : Game) (c : Card) (rest : List Card)
    (e : Enemy) (h : g.castle_deck.cards = c :: rest)
    (he : Enemy.new? c = some e) :
    revealNextEnemy g = some
      { g with
          castle_deck := ⟨rest⟩
          current_enemy := some e
          shield_value := 0
          total_damage := 0
          played_cards := [] } := by
  have hstep : revealNextEnemy g = (Enemy.new? c).map fun e =>
      { g with
          castle_deck := ⟨rest⟩
          current_enemy := some e
          shield_value := 0
          total_damage := 0
          played_cards := [] } := by
    unfold revealNextEnemy Deck.draw
    rw [h]
  rw [hstep, he]
  rfl

/-- A face card always constructs an enemy, whose stats are one of the
three fixed pairs. -/
theorem Enemy.new?_of_face (c : Card)
    (h : c.rank = .Jack ∨ c.rank = .Queen ∨ c.rank = .King) :
    ∃ e, Enemy.new? c = some e ∧
      ((e.max_hp = 20 ∧ e.attack = 10) ∨ (e.max_hp = 30 ∧ e.attack = 15) ∨
        (e.max_hp = 40 ∧ e.attack = 20)) ∧
      e.card = c ∧ e.current_hp = e.max_hp ∧ e.immunity_cancelled = false := by
  rcases h with h | h | h
  · exact ⟨⟨c, 20, 20, 10, false⟩, by simp [Enemy.new?, h],
      Or.inl ⟨rfl, rfl⟩, rfl, rfl, rfl⟩
  · exact ⟨⟨c, 30, 30, 15, false⟩, by simp [Enemy.new?, h],
      Or.inr (Or.inl ⟨rfl, rfl⟩), rfl, rfl, rfl⟩
  · exact ⟨⟨c, 40, 40, 20, false⟩, by simp [Enemy.new?, h],
      Or.inr (Or.inr ⟨rfl, rfl⟩), rfl, rfl, rfl⟩

/-- C3: when an enemy dies (`Game::enemy_defeated`, reached exactly when
its hit points hit 0 in `deal_damage`): exact accumulated damage places
the enemy card on top of the tavern deck, any other lethal total places
it in the discard pile; in both cases the whole of `played_cards` moves
to the discard pile; then the next castle card is revealed as the new
enemy, or Victory is declared when the castle deck is empty. -/
theorem enemyDefeated_routing (g : Game) (e : Enemy)
    (hface : ∀ c ∈ g.castle_deck.cards,
      c.rank = .Jack ∨ c.rank = .Queen ∨ c.rank = .King) :
    ∃ g', enemyDefeated g e = some g' ∧
      (g.total_damage = e.max_hp →
        g'.tavern_deck = g.tavern_deck.addToTop e.card ∧
        g'.discard_pile = g.discard_pile ++ g.played_cards) ∧
      (g.total_damage ≠ e.max_hp →
        g'.tavern_deck = g.tavern_deck ∧
        g'.discard_pile = g.discard_pile ++ [e.card] ++ g.played_cards) ∧
      g'.played_cards = [] ∧
      (g.castle_deck.cards = [] →
        g'.game_state = .Victory ∧ g'.current_enemy = g.current_enemy ∧
        g'.castle_deck = g.castle_deck) ∧
      (∀ c rest, g.castle_deck.cards = c :: rest →
        ∃ e', Enemy.new? c = some e' ∧ g'.current_enemy = some e' ∧
          g'.castle_deck.cards = rest ∧ g'.shield_value = 0 ∧
          g'.total_damage = 0 ∧ g'.game_state = g.game_state) := by
  unfold enemyDefeated
  by_cases hex : e.defeatedExactly g.total_damage
  · rw [if_pos hex]
    have hex' : g.total_damage = e.max_hp := by
      simpa [Enemy.defeatedExactly] using hex
    cases hc : g.castle_deck.cards with
    | nil =>
      refine ⟨_, revealNextEnemy_empty _ hc, ?_⟩
      refine ⟨fun _ => ⟨rfl, rfl⟩, fun hne => absurd hex' hne, rfl,
        fun _ => ⟨rfl, rfl, rfl⟩, fun c rest hcc => ?_⟩
      cases hcc
    | cons c rest =>
      obtain ⟨e', he', hstats, -, -, -⟩ :=
        Enemy.new?_of_face c (hface c (by rw [hc]; exact List.mem_cons_self c rest))
      refine ⟨_, revealNextEnemy_cons _ c rest e' hc he', ?_⟩
      refine ⟨fun _ => ⟨rfl, rfl⟩, fun hne => absurd hex' hne, rfl,
        fun hnil => ?_, fun c' rest' hcc => ?_⟩
      · cases hnil
      · cases hcc
        exact ⟨e', he', rfl, rfl, rfl, rfl, rfl⟩
  · rw [if_neg hex]
    have hex' : g.total_damage ≠ e.max_hp := by
      simpa [Enemy.defeatedExactly] using hex
    cases hc : g.castle_deck.cards with
    | nil =>
      refine ⟨_, revealNextEnemy_empty _ hc, ?_⟩
      refine ⟨fun heq => absurd heq hex', fun _ => ⟨rfl, by simp⟩, rfl,
        fun _ => ⟨rfl, rfl, rfl⟩, fun c rest hcc => ?_⟩
      cases hcc
    | cons c rest =>
      obtain ⟨e', he', hstats, -, -, -⟩ :=
        Enemy.new?_of_face c (hface c (by rw [hc]; exact List.mem_cons_self c rest))
      refine ⟨_, revealNextEnemy_cons _ c rest e' hc he', ?_⟩
      refine ⟨fun heq => absurd heq hex', fun _ => ⟨rfl, by simp⟩, rfl,
        fun hnil => ?_, fun c' rest' hcc => ?_⟩
      · cases hnil
      · cases hcc
        exact ⟨e', he', rfl, rfl, rfl, rfl, rfl⟩

/-- C3: when an enemy dies: exact accumulated damage (`total_damage ==
max_hp`) places the enemy card on top of the player (tavern) deck, any
other lethal total places it in the discard pile; in both cases the
whole of `played_cards` moves to the discard pile; then the next castle
card is revealed as the new enemy, or Victory is declared when the
castle (enemy) deck is empty. -/
theorem C3_enemy_defeat_routing (g : Game) (e : Enemy)
    (hface : ∀ c ∈ g.castle_deck.cards,
      c.rank = .Jack ∨ c.rank = .Queen ∨ c.rank = .King) :
    ∃ g', enemyDefeated g e = some g' ∧
      (g.total_damage = e.max_hp →
        g'.tavern_deck = g.tavern_deck.addToTop e.card ∧
        g'.discard_pile = g.discard_pile ++ g.played_cards) ∧
      (g.total_damage ≠ e.max_hp →
        g'.tavern_deck = g.tavern_deck ∧
        g'.discard_pile = g.discard_pile ++ [e.card] ++ g.played_cards) ∧
      g'.played_cards = [] ∧
      (g.castle_deck.cards = [] →
        g'.game_state = .Victory ∧ g'.current_enemy = g.current_enemy) ∧
      (∀ c rest, g.castle_deck.cards = c :: rest →
        ∃ e', Enemy.new? c = some e' ∧ g'.current_enemy = some e' ∧
          g'.castle_deck.cards = rest ∧ g'.shield_value = 0 ∧
          g'.total_damage = 0 ∧ g'.game_state = g.game_state) := by
  obtain ⟨g', h1, h2, h3, h4, h5, h6⟩ := enemyDefeated_routing g e hface
  exact ⟨g', h1, h2, h3, h4, fun hnil => ⟨(h5 hnil).1, (h5 hnil).2.1⟩, h6⟩

/-- C3 witness: the routing applied to a concrete state — a Jack
defeated with exactly 20 total damage while a Queen of Spades waits in
the castle deck is captured onto the tavern deck, the played cards move
to the discard pile, and `played_cards` is cleared. -/
theorem C3_witness :
    (enemyDefeated
        { gameWithHand [] with
            castle_deck := ⟨[⟨Suit.Spades, Rank.Queen⟩]⟩
            total_damage := 20
            played_cards := [⟨Suit.Clubs, Rank.Ten⟩] }
        ⟨⟨Suit.Hearts, Rank.Jack⟩, 20, 0, 10, false⟩).map
        (fun gg => (gg.tavern_deck, gg.discard_pile, gg.played_cards)) =
      some (⟨[⟨Suit.Hearts, Rank.Jack⟩]⟩, [⟨Suit.Clubs, Rank.Ten⟩], []) := by
  obtain ⟨g', h1, h2, h3, h4, h5, h6⟩ :=
    C3_enemy_defeat_routing
      { gameWithHand [] with
          castle_deck := ⟨[⟨Suit.Spades, Rank.Queen⟩]⟩
          total_damage := 20
          played_cards := [⟨Suit.Clubs, Rank.Ten⟩] }
      ⟨⟨Suit.Hearts, Rank.Jack⟩, 20, 0, 10, false⟩ (by decide)
  obtain ⟨ht, hd⟩ := h2 (by decide)
  rw [h1]
  simp [ht, hd, h4, Deck.addToTop, gameWithHand, emptyGame]

/-- The removed-cards component of `Player::play_cards` is the resolved
selection. -/
theorem playHand_fst (g : Game) (idx : List Nat) :
    (g.player.playHand idx).1 = selectedCards g idx := rfl

/-- `play_cards` on a selection that fails validation: the error is
surfaced and the only state change is the per-turn flag reset that
precedes validation. -/
theorem playCards_validate_error (sh : List Card → List Card) (g : Game)
    (idx : List Nat) (msg : String) (h : validatePlay g idx = .error msg) :
    playCards sh g idx =
      some (.error msg, { g with jester_played_this_turn := false }) := by
  simp only [playCards]
  rw [show validatePlay { g with jester_played_this_turn := false } idx
    = .error msg from h]

/-- `play_cards` of a validated lone Jester: immunity cancelled,
retroactive Spades shield (only against a Spades enemy), the Jester
discarded, the per-turn flag set, no damage dealt and no suit powers
applied. -/
theorem playCards_jester (sh : List Card → List Card) (g : Game)
    (idx : List Nat) (c : Card) (e : Enemy)
    (hok : validatePlay g idx = .ok ())
    (hsel : selectedCards g idx = [c]) (hj : c.isJester = true)
    (he : g.current_enemy = some e) :
    playCards sh g idx = some (.ok false,
      { g with
          player := (g.player.playHand idx).2
          current_enemy := some e.cancelImmunity
          shield_value :=
            if e.card.suit = Suit.Spades ∧ 0 < spadesRetro g then
              u8add g.shield_value (spadesRetro g)
            else g.shield_value
          discard_pile := g.discard_pile ++ [c]
          jester_played_this_turn := true }) := by
  simp only [playCards]
  rw [show validatePlay { g with jester_played_this_turn := false } idx
    = .ok () from hok]
  simp only [playHand_fst]
  rw [hsel, he]
  simp only [hj, if_true, spadesRetro]
  split_ifs <;> first | rfl | tauto

/-- The Hearts step touches only the discard pile and the tavern
deck. -/
theorem heartsHeal_fields (sh : List Card → List Card) (g : Game) (p : Nat) :
    (heartsHeal sh g p).current_enemy = g.current_enemy ∧
    (heartsHeal sh g p).player = g.player ∧
    (heartsHeal sh g p).castle_deck = g.castle_deck ∧
    (heartsHeal sh g p).played_cards = g.played_cards ∧
    (heartsHeal sh g p).shield_value = g.shield_value ∧
    (heartsHeal sh g p).total_damage = g.total_damage ∧
    (heartsHeal sh g p).game_state = g.game_state ∧
    (heartsHeal sh g p).jester_count = g.jester_count ∧
    (heartsHeal sh g p).jesters_used = g.jesters_used ∧
    (heartsHeal sh g p).jester_played_this_turn = g.jester_played_this_turn := by
  unfold heartsHeal
  split_ifs <;> exact ⟨rfl, rfl, rfl, rfl, rfl, rfl, rfl, rfl, rfl, rfl⟩

/-- The Diamonds step touches only the player and the tavern deck. -/
theorem diamondsDraw_fields (g : Game) (p : Nat) :
    (diamondsDraw g p).current_enemy = g.current_enemy ∧
    (diamondsDraw g p).castle_deck = g.castle_deck ∧
    (diamondsDraw g p).discard_pile = g.discard_pile ∧
    (diamondsDraw g p).played_cards = g.played_cards ∧
    (diamondsDraw g p).shield_value = g.shield_value ∧
    (diamondsDraw g p).total_damage = g.total_damage ∧
    (diamondsDraw g p).game_state = g.game_state ∧
    (diamondsDraw g p).jester_count = g.jester_count ∧
    (diamondsDraw g p).jesters_used = g.jesters_used ∧
    (diamondsDraw g p).jester_played_this_turn = g.jester_played_this_turn := by
  unfold diamondsDraw
  split_ifs <;> exact ⟨rfl, rfl, rfl, rfl, rfl, rfl, rfl, rfl, rfl, rfl⟩

/-- The Spades step touches only the shield. -/
theorem spadesShield_fields (g : Game) (p : Nat) :
    (spadesShield g p).current_enemy = g.current_enemy ∧
    (spadesShield g p).castle_deck = g.castle_deck ∧
    (spadesShield g p).discard_pile = g.discard_pile ∧
    (spadesShield g p).tavern_deck = g.tavern_deck ∧
    (spadesShield g p).player = g.player ∧
    (spadesShield g p).played_cards = g.played_cards ∧
    (spadesShield g p).total_damage = g.total_damage ∧
    (spadesShield g p).game_state = g.game_state ∧
    (spadesShield g p).jester_count = g.jester_count ∧
    (spadesShield g p).jesters_used = g.jesters_used ∧
    (spadesShield g p).jester_played_this_turn = g.jester_played_this_turn ∧
    (spadesShield g p).shield_value =
      (if 0 < p then u8add g.shield_value p else g.shield_value) := by
  unfold spadesShield
  split_ifs <;>
    exact ⟨rfl, rfl, rfl, rfl, rfl, rfl, rfl, rfl, rfl, rfl, rfl, rfl⟩

/-- With an enemy present, `apply_suit_powers` always succeeds; the
fields other than discard pile, tavern deck and hand are preserved,
except the shield which gains the Spades power. -/
theorem applySuitPowers_ok (sh : List Card → List Card) (g : Game)
    (cards : List Card) (a : Nat) (e : Enemy) (he : g.current_enemy = some e) :
    ∃ g1, applySuitPowers sh g cards a = .ok g1 ∧
      g1.current_enemy = some e ∧
      g1.castle_deck = g.castle_deck ∧
      g1.played_cards = g.played_cards ∧
      g1.total_damage = g.total_damage ∧
      g1.game_state = g.game_state ∧
      g1.jester_count = g.jester_count ∧
      g1.jesters_used = g.jesters_used ∧
      g1.jester_played_this_turn = g.jester_played_this_turn ∧
      g1.shield_value =
        (if 0 < suitPower cards e .Spades a then
          u8add g.shield_value (suitPower cards e .Spades a)
        else g.shield_value) := by
  unfold applySuitPowers
  rw [he]
  refine ⟨_, rfl, ?_⟩
  obtain ⟨h1, h2, h3, h4, h5, h6, h7, h8, h9, h10⟩ :=
    heartsHeal_fields sh g (suitPower cards e .Hearts a)
  obtain ⟨d1, d2, d3, d4, d5, d6, d7, d8, d9, d10⟩ :=
    diamondsDraw_fields (heartsHeal sh g (suitPower cards e .Hearts a))
      (suitPower cards e .Diamonds a)
  obtain ⟨s1, s2, s3, s4, s5, s6, s7, s8, s9, s10, s11, s12⟩ :=
    spadesShield_fields
      (diamondsDraw (heartsHeal sh g (suitPower cards e .Hearts a))
        (suitPower cards e .Diamonds a))
      (suitPower cards e .Spades a)
  refine ⟨?_, ?_, ?_, ?_, ?_, ?_, ?_, ?_, ?_⟩
  · rw [s1, d1, h1, he]
  · rw [s2, d2, h3]
  · rw [s6, d4, h4]
  · rw [s7, d6, h6]
  · rw [s8, d7, h7]
  · rw [s9, d8, h8]
  · rw [s10, d9, h9]
  · rw [s11, d10, h10]
  · rw [s12, d5, h5]

/-- `deal_damage` on a non-lethal hit: `total_damage` accumulates the (possibly doubled) attack and the enemy's hit points drop by it. -/
theorem dealDamage_nonlethal (g : Game) (a : Nat) (cards : List Card)
    (e : Enemy) (he : g.current_enemy = some e)
    (hd : comboDamage e cards a < e.current_hp) :
    dealDamage g a cards = some (.ok
      { g with
          total_damage := u8add g.total_damage (comboDamage e cards a)
          current_enemy := some (e.takeDamage (comboDamage e cards a)) }) := by
  simp only [dealDamage, he]
  have hnd : ¬ ((e.takeDamage
      (if clubsActive e cards then u8mul2 a else a)).isDefeated = true) := by
    simp only [Enemy.isDefeated, Enemy.takeDamage, comboDamage] at hd ⊢
    simp only [decide_eq_true_eq]
    omega
  rw [if_neg hnd]
  rfl

/-- `deal_damage` on a lethal hit: after accumulating `total_damage` and dropping the hit points to zero, `enemy_defeated` runs. -/
theorem dealDamage_lethal (g : Game) (a : Nat) (cards : List Card)
    (e : Enemy) (he : g.current_enemy = some e)
    (hd : e.current_hp ≤ comboDamage e cards a) :
    dealDamage g a cards =
      (enemyDefeated
        { g with
            total_damage := u8add g.total_damage (comboDamage e cards a)
            current_enemy := none }
        (e.takeDamage (comboDamage e cards a))).map .ok := by
  simp only [dealDamage, he]
  have hnd : (e.takeDamage
      (if clubsActive e cards then u8mul2 a else a)).isDefeated = true := by
    simp only [Enemy.isDefeated, Enemy.takeDamage, comboDamage] at hd ⊢
    simp only [decide_eq_true_eq]
    omega
  rw [if_pos hnd]
  rfl

/-- A validated non-Jester play that does not kill the enemy: suit powers resolve, the combo joins `played_cards`, damage lands, and the call reports the enemy as not defeated. -/
theorem playCards_normal_nonlethal (sh : List Card → List Card) (g : Game)
    (idx : List Nat) (c0 : Card) (rest : List Card) (e : Enemy)
    (hok : validatePlay g idx = .ok ())
    (hsel : selectedCards g idx = c0 :: rest)
    (hj : c0.isJester = false)
    (he : g.current_enemy = some e)
    (hnl : comboDamage e (c0 :: rest) ((List.map Card.value (c0 :: rest)).sum)
      < e.current_hp) :
    ∃ g1,
      applySuitPowers sh
        { g with
            jester_played_this_turn := false
            player := (g.player.playHand idx).2 }
        (c0 :: rest) ((List.map Card.value (c0 :: rest)).sum) = .ok g1 ∧
      playCards sh g idx = some (.ok false,
        { g1 with
            played_cards := g1.played_cards ++ (c0 :: rest)
            total_damage := u8add g1.total_damage
              (comboDamage e (c0 :: rest) ((List.map Card.value (c0 :: rest)).sum))
            current_enemy := some (e.takeDamage
              (comboDamage e (c0 :: rest) ((List.map Card.value (c0 :: rest)).sum))) }) := by
  obtain ⟨g1, happ, hce, -, -, -, -, -, -, -, -⟩ :=
    applySuitPowers_ok sh
      { g with
          jester_played_this_turn := false
          player := (g.player.playHand idx).2 }
      (c0 :: rest) ((List.map Card.value (c0 :: rest)).sum) e (by exact he)
  refine ⟨g1, happ, ?_⟩
  have hdd := dealDamage_nonlethal
    { g1 with played_cards := g1.played_cards ++ (c0 :: rest) }
    ((List.map Card.value (c0 :: rest)).sum) (c0 :: rest) e hce hnl
  simp only [playCards]
  rw [show validatePlay { g with jester_played_this_turn := false } idx
    = .ok () from hok]
  simp only [playHand_fst]
  rw [hsel]
  simp only [hj, Bool.false_eq_true, if_false]
  simp only [happ]
  simp only [hdd]
  simp only [he, Option.map_some]
  simp [Enemy.takeDamage]

/-- A validated non-Jester play that kills the enemy: after suit powers, committing the combo and accumulating damage, `enemy_defeated` resolves capture/discard and reveals the next enemy. -/
theorem playCards_normal_lethal (sh : List Card → List Card) (g : Game)
    (idx : List Nat) (c0 : Card) (rest : List Card) (e : Enemy)
    (hok : validatePlay g idx = .ok ())
    (hsel : selectedCards g idx = c0 :: rest)
    (hj : c0.isJester = false)
    (he : g.current_enemy = some e)
    (hl : e.current_hp ≤
      comboDamage e (c0 :: rest) ((List.map Card.value (c0 :: rest)).sum)) :
    ∃ g1,
      applySuitPowers sh
        { g with
            jester_played_this_turn := false
            player := (g.player.playHand idx).2 }
        (c0 :: rest) ((List.map Card.value (c0 :: rest)).sum) = .ok g1 ∧
      playCards sh g idx =
        (match enemyDefeated
            { g1 with
                played_cards := g1.played_cards ++ (c0 :: rest)
                total_damage := u8add g1.total_damage
                  (comboDamage e (c0 :: rest)
                    ((List.map Card.value (c0 :: rest)).sum))
                current_enemy := none }
            (e.takeDamage (comboDamage e (c0 :: rest)
              ((List.map Card.value (c0 :: rest)).sum))) with
        | none => none
        | some g3 => some (.ok (decide (some e.card ≠
            g3.current_enemy.map fun en => en.card)), g3)) := by
  obtain ⟨g1, happ, hce, -, -, -, -, -, -, -, -⟩ :=
    applySuitPowers_ok sh
      { g with
          jester_played_this_turn := false
          player := (g.player.playHand idx).2 }
      (c0 :: rest) ((List.map Card.value (c0 :: rest)).sum) e (by exact he)
  refine ⟨g1, happ, ?_⟩
  have hdd := dealDamage_lethal
    { g1 with played_cards := g1.played_cards ++ (c0 :: rest) }
    ((List.map Card.value (c0 :: rest)).sum) (c0 :: rest) e hce hl
  simp only [playCards]
  rw [show validatePlay { g with jester_played_this_turn := false } idx
    = .ok () from hok]
  simp only [playHand_fst]
  rw [hsel]
  simp only [hj, Bool.false_eq_true, if_false]
  simp only [happ]
  simp only [hdd]
  simp only [he]
  cases henemy : enemyDefeated
      { g1 with
          played_cards := g1.played_cards ++ (c0 :: rest)
          total_damage := u8add g1.total_damage
            (comboDamage e (c0 :: rest)
              ((List.map Card.value (c0 :: rest)).sum))
          current_enemy := none }
      (e.takeDamage (comboDamage e (c0 :: rest)
        ((List.map Card.value (c0 :: rest)).sum))) with
  | none => simp [henemy]
  | some g3 => simp [henemy, Option.map_some]

/-- A validated selection headed by a Jester is that Jester alone. -/
theorem validate_ok_jester_single (g : Game) (idx : List Nat) (c0 : Card)
    (rest : List Card) (hok : validatePlay g idx = .ok ())
    (hsel : selectedCards g idx = c0 :: rest) (hj : c0.isJester = true) :
    rest = [] := by
  obtain ⟨-, -, hcombo⟩ := validatePlay_ok_parts g idx hok
  rw [hsel] at hcombo
  unfold validateCombo at hcombo
  have hany : (c0 :: rest).any Card.isJester = true := by simp [hj]
  rw [if_pos hany] at hcombo
  by_cases h1 : 1 < (c0 :: rest).length
  · rw [if_pos h1] at hcombo; cases hcombo
  · cases rest with
    | nil => rfl
    | cons x t => simp at h1

/-- With no current enemy, a validated non-Jester play fails in `apply_suit_powers` only after the cards have left the hand. -/
theorem playCards_no_enemy_normal (sh : List Card → List Card) (g : Game)
    (idx : List Nat) (c0 : Card) (rest : List Card)
    (hok : validatePlay g idx = .ok ())
    (hsel : selectedCards g idx = c0 :: rest)
    (hj : c0.isJester = false)
    (he : g.current_enemy = none) :
    playCards sh g idx = some (.error "No current enemy",
      { g with
          jester_played_this_turn := false
          player := (g.player.playHand idx).2 }) := by
  simp only [playCards]
  rw [show validatePlay { g with jester_played_this_turn := false } idx
    = .ok () from hok]
  simp only [playHand_fst]
  rw [hsel]
  simp only [hj, Bool.false_eq_true, if_false]
  simp only [applySuitPowers, he]

/-- With an enemy present, a validated play never returns an error. -/
theorem playCards_ok_no_error (sh : List Card → List Card) (g : Game)
    (idx : List Nat) (e : Enemy) (m : String) (g' : Game)
    (he : g.current_enemy = some e)
    (hok : validatePlay g idx = .ok ()) :
    playCards sh g idx ≠ some (.error m, g') := by
  have hne := validatePlay_ok_nonempty g idx hok
  obtain ⟨c0, rest, hsel⟩ := List.exists_cons_of_ne_nil hne
  by_cases hj : c0.isJester
  · have hr : rest = [] := validate_ok_jester_single g idx c0 rest hok hsel hj
    subst hr
    rw [playCards_jester sh g idx c0 e hok hsel hj he]
    intro h
    cases h
  · by_cases hl : comboDamage e (c0 :: rest)
        ((List.map Card.value (c0 :: rest)).sum) < e.current_hp
    · obtain ⟨g1, -, hpc⟩ := playCards_normal_nonlethal sh g idx c0 rest e hok
        hsel (by simpa using hj) he hl
      rw [hpc]
      intro h
      cases h
    · obtain ⟨g1, -, hpc⟩ := playCards_normal_lethal sh g idx c0 rest e hok
        hsel (by simpa using hj) he (Nat.le_of_not_lt hl)
      rw [hpc]
      cases enemyDefeated
          { g1 with
              played_cards := g1.played_cards ++ (c0 :: rest)
              total_damage := u8add g1.total_damage
                (comboDamage e (c0 :: rest)
                  ((List.map Card.value (c0 :: rest)).sum))
              current_enemy := none }
          (e.takeDamage (comboDamage e (c0 :: rest)
            ((List.map Card.value (c0 :: rest)).sum))) with
      | none => intro h; cases h
      | some g3 => intro h; cases h

/-- C1 (amended): with a current enemy present, an erroring operation
leaves the observable state unchanged except that `play_cards` resets
the per-turn Jester flag before validating; `enemy_attack`,
`discard_to_survive` and `use_jester` leave the state fully unchanged on
error, and `yield_turn` never fails.  Without a current enemy, a
validated non-Jester `play_cards` removes the selected cards from the
hand before failing with "No current enemy". -/
theorem C1_error_atomicity :
    (∀ (sh : List Card → List Card) (g : Game) (idx : List Nat) (m : String)
      (g' : Game), g.current_enemy.isSome →
      playCards sh g idx = some (.error m, g') →
      g' = { g with jester_played_this_turn := false } ∧
        validatePlay g idx = .error m) ∧
    (∀ (sh : List Card → List Card) (g : Game) (idx : List Nat) (c0 : Card)
      (rest : List Card), validatePlay g idx = .ok () →
      selectedCards g idx = c0 :: rest → c0.isJester = false →
      g.current_enemy = none →
      playCards sh g idx = some (.error "No current enemy",
        { g with
            jester_played_this_turn := false
            player := (g.player.playHand idx).2 })) ∧
    (∀ g : Game, (enemyAttack g).2 = g) ∧
    (∀ (g : Game) (idx : List Nat) (m : String),
      (discardToSurvive g idx).1 = .error m → (discardToSurvive g idx).2 = g) ∧
    (∀ (g : Game) (m : String),
      (useJester g).1 = .error m → (useJester g).2 = g) ∧
    (∀ g : Game, (yieldTurn g).1 = .ok ()) := by
  refine ⟨?_, ?_, ?_, ?_, ?_, ?_⟩
  · intro sh g idx m g' hes h
    obtain ⟨e, he⟩ := Option.isSome_iff_exists.mp hes
    cases hv : validatePlay g idx with
    | error msg =>
      rw [playCards_validate_error sh g idx msg hv] at h
      simp only [Option.some.injEq, Prod.mk.injEq, Except.error.injEq] at h
      exact ⟨h.2.symm, by rw [h.1]⟩
    | ok u =>
      cases u
      exact absurd h (playCards_ok_no_error sh g idx e m g' he hv)
  · exact fun sh g idx c0 rest hok hsel hj he =>
      playCards_no_enemy_normal sh g idx c0 rest hok hsel hj he
  · intro g
    unfold enemyAttack
    cases g.current_enemy <;> rfl
  · intro g idx m
    cases he : g.current_enemy with
    | none => intro _; simp [discardToSurvive, he]
    | some e =>
      simp only [discardToSurvive, he]
      split_ifs with hlt
      · intro _; rfl
      · intro h; cases h
  · intro g m
    unfold useJester
    by_cases hu : g.jester_count ≤ g.jesters_used
    · rw [if_pos hu]
      intro _; rfl
    · rw [if_neg hu]
      intro h; cases h
  · intro g; rfl

/-- C1 counterexample: the claim as stated is false — a failing
`play_cards` call (empty selection) on a state whose
`jester_played_this_turn` flag is set returns an error yet mutates that
observable flag to `false`. -/
theorem C1_counterexample :
    (playCards id
        { gameWithHand [] with
            current_enemy := some ⟨⟨Suit.Hearts, Rank.Jack⟩, 20, 20, 10, false⟩
            jester_played_this_turn := true } []).map (fun rg => rg.1) =
      some (.error "Must select at least one card") ∧
    (playCards id
        { gameWithHand [] with
            current_enemy := some ⟨⟨Suit.Hearts, Rank.Jack⟩, 20, 20, 10, false⟩
            jester_played_this_turn := true } []).map (fun rg => rg.2) ≠
      some { gameWithHand [] with
          current_enemy := some ⟨⟨Suit.Hearts, Rank.Jack⟩, 20, 20, 10, false⟩
          jester_played_this_turn := true } := by
  constructor
  · rfl
  · decide

/-- C1 witness: the amended atomicity applied at a concrete failing
call. -/
theorem C1_witness :
    ({ gameWithHand [] with
        current_enemy := some ⟨⟨Suit.Hearts, Rank.Jack⟩, 20, 20, 10, false⟩ } :
      Game) =
      { ({ gameWithHand [] with
            current_enemy := some ⟨⟨Suit.Hearts, Rank.Jack⟩, 20, 20, 10, false⟩
            jester_played_this_turn := true } : Game) with
          jester_played_this_turn := false } ∧
    validatePlay
        { gameWithHand [] with
            current_enemy := some ⟨⟨Suit.Hearts, Rank.Jack⟩, 20, 20, 10, false⟩
            jester_played_this_turn := true } [] =
      .error "Must select at least one card" :=
  C1_error_atomicity.1 id
    { gameWithHand [] with
        current_enemy := some ⟨⟨Suit.Hearts, Rank.Jack⟩, 20, 20, 10, false⟩
        jester_played_this_turn := true } [] "Must select at least one card"
    { gameWithHand [] with
        current_enemy := some ⟨⟨Suit.Hearts, Rank.Jack⟩, 20, 20, 10, false⟩ }
    rfl rfl

/-- Any constructed enemy carries one of the three fixed stat pairs. -/
theorem Enemy.new?_stats (c : Card) (e : Enemy) (h : Enemy.new? c = some e) :
    (e.max_hp = 20 ∧ e.attack = 10) ∨ (e.max_hp = 30 ∧ e.attack = 15) ∨
      (e.max_hp = 40 ∧ e.attack = 20) := by
  cases hr : c.rank <;> simp [Enemy.new?, hr] at h
  all_goals first
    | (subst h; exact Or.inl ⟨rfl, rfl⟩)
    | (subst h; exact Or.inr (Or.inl ⟨rfl, rfl⟩))
    | (subst h; exact Or.inr (Or.inr ⟨rfl, rfl⟩))

/-- A validated lone Jester with no current enemy: the `if let` is skipped, the Jester is still discarded and the flag set. -/
theorem playCards_jester_no_enemy (sh : List Card → List Card) (g : Game)
    (idx : List Nat) (c : Card)
    (hok : validatePlay g idx = .ok ())
    (hsel : selectedCards g idx = [c]) (hj : c.isJester = true)
    (he : g.current_enemy = none) :
    playCards sh g idx = some (.ok false,
      { g with
          player := (g.player.playHand idx).2
          discard_pile := g.discard_pile ++ [c]
          jester_played_this_turn := true }) := by
  simp only [playCards]
  rw [show validatePlay { g with jester_played_this_turn := false } idx
    = .ok () from hok]
  simp only [playHand_fst]
  rw [hsel, he]
  simp only [hj, if_true]

/-- `play_cards` never reaches the `Enemy::new` panic and preserves the safety invariant. -/
theorem playCards_preserves_inv (sh : List Card → List Card) (g : Game)
    (idx : List Nat) (hinv : GameInv g) :
    playCards sh g idx ≠ none ∧
      ∀ r g', playCards sh g idx = some (r, g') → GameInv g' := by
  cases hv : validatePlay g idx with
  | error msg =>
    rw [playCards_validate_error sh g idx msg hv]
    refine ⟨by simp, ?_⟩
    intro r g' h
    simp only [Option.some.injEq, Prod.mk.injEq] at h
    rw [← h.2]
    exact ⟨hinv.1, hinv.2⟩
  | ok u =>
    cases u
    have hne := validatePlay_ok_nonempty g idx hv
    obtain ⟨c0, rest, hsel⟩ := List.exists_cons_of_ne_nil hne
    by_cases hj : c0.isJester
    · have hr := validate_ok_jester_single g idx c0 rest hv hsel hj
      subst hr
      cases he : g.current_enemy with
      | none =>
        rw [playCards_jester_no_enemy sh g idx c0 hv hsel hj he]
        refine ⟨by simp, ?_⟩
        intro r g' h
        simp only [Option.some.injEq, Prod.mk.injEq] at h
        rw [← h.2]
        exact ⟨hinv.1, fun e hh => hinv.2 e hh⟩
      | some e =>
        rw [playCards_jester sh g idx c0 e hv hsel hj he]
        refine ⟨by simp, ?_⟩
        intro r g' h
        simp only [Option.some.injEq, Prod.mk.injEq] at h
        rw [← h.2]
        refine ⟨hinv.1, fun e' hh => ?_⟩
        have : e.cancelImmunity = e' := by simpa using hh
        rw [← this]
        exact hinv.2 e he
    · have hj' : c0.isJester = false := by simpa using hj
      cases he : g.current_enemy with
      | none =>
        rw [playCards_no_enemy_normal sh g idx c0 rest hv hsel hj' he]
        refine ⟨by simp, ?_⟩
        intro r g' h
        simp only [Option.some.injEq, Prod.mk.injEq] at h
        rw [← h.2]
        exact ⟨hinv.1, fun e hh => hinv.2 e hh⟩
      | some e =>
        obtain ⟨g1, happ', hce, hcastle, -, -, -, -, -, -, -⟩ :=
          applySuitPowers_ok sh
            { g with
                jester_played_this_turn := false
                player := (g.player.playHand idx).2 }
            (c0 :: rest) ((List.map Card.value (c0 :: rest)).sum) e (by exact he)
        by_cases hl : comboDamage e (c0 :: rest)
            ((List.map Card.value (c0 :: rest)).sum) < e.current_hp
        · obtain ⟨g1x, happx, hpc⟩ :=
            playCards_normal_nonlethal sh g idx c0 rest e hv hsel hj' he hl
          have heq : g1 = g1x := by
            rw [happ'] at happx
            injection happx with h
          rw [← heq] at hpc
          rw [hpc]
          refine ⟨by simp, ?_⟩
          intro r g' h
          simp only [Option.some.injEq, Prod.mk.injEq] at h
          rw [← h.2]
          constructor
          · intro c hc
            exact hinv.1 c (by
              have : g1.castle_deck = g.castle_deck := by
                rw [hcastle]
              rw [← this]
              exact hc)
          · intro e' hh
            have : e.takeDamage (comboDamage e (c0 :: rest)
                ((List.map Card.value (c0 :: rest)).sum)) = e' := by
              simpa using hh
            rw [← this]
            exact hinv.2 e he
        · obtain ⟨g1x, happx, hpc⟩ :=
            playCards_normal_lethal sh g idx c0 rest e hv hsel hj' he
              (Nat.le_of_not_lt hl)
          have heq : g1 = g1x := by
            rw [happ'] at happx
            injection happx with h
          rw [← heq] at hpc
          rw [hpc]
          have hface : ∀ c ∈ ({ g1 with
              played_cards := g1.played_cards ++ (c0 :: rest)
              total_damage := u8add g1.total_damage
                (comboDamage e (c0 :: rest)
                  ((List.map Card.value (c0 :: rest)).sum))
              current_enemy := none } : Game).castle_deck.cards,
              c.rank = .Jack ∨ c.rank = .Queen ∨ c.rank = .King := by
            intro c hc
            refine hinv.1 c ?_
            have : g1.castle_deck = g.castle_deck := by rw [hcastle]
            simpa [this] using hc
          obtain ⟨g'', hdef, -, -, -, hnil, hcons⟩ :=
            enemyDefeated_routing _ _ hface
          rw [hdef]
          refine ⟨by simp, ?_⟩
          intro r g' h
          simp only [Option.some.injEq, Prod.mk.injEq] at h
          rw [← h.2]
          cases hc : ({ g1 with
              played_cards := g1.played_cards ++ (c0 :: rest)
              total_damage := u8add g1.total_damage
                (comboDamage e (c0 :: rest)
                  ((List.map Card.value (c0 :: rest)).sum))
              current_enemy := none } : Game).castle_deck.cards with
          | nil =>
            obtain ⟨-, henemy, hcast⟩ := hnil hc
            constructor
            · intro cx hcc
              rw [hcast] at hcc
              rw [hc] at hcc
              exact absurd hcc (List.not_mem_nil cx)
            · intro e' hh
              rw [henemy] at hh
              cases hh
          | cons c crest =>
            obtain ⟨e', hnew, henemy, hcast, -, -, -⟩ := hcons c crest hc
            constructor
            · intro cx hcx
              rw [hcast] at hcx
              refine hface cx ?_
              rw [hc]
              exact List.mem_cons_of_mem c hcx
            · intro ex hex
              rw [henemy] at hex
              cases hex
              exact Enemy.new?_stats c e' hnew

/-- `enemy_attack` never mutates the state. -/
theorem enemyAttack_snd (g : Game) : (enemyAttack g).2 = g := by
  unfold enemyAttack
  cases g.current_enemy <;> rfl

/-- `discard_to_survive` touches neither the castle deck nor the enemy. -/
theorem discardToSurvive_castle_enemy (g : Game) (idx : List Nat) :
    (discardToSurvive g idx).2.castle_deck = g.castle_deck ∧
      (discardToSurvive g idx).2.current_enemy = g.current_enemy := by
  cases he : g.current_enemy with
  | none => simp [discardToSurvive, he]
  | some e =>
    simp only [discardToSurvive, he]
    split_ifs
    · exact ⟨rfl, he⟩
    · exact ⟨rfl, rfl⟩

/-- `use_jester` touches neither the castle deck nor the enemy. -/
theorem useJester_castle_enemy (g : Game) :
    (useJester g).2.castle_deck = g.castle_deck ∧
      (useJester g).2.current_enemy = g.current_enemy := by
  unfold useJester
  split_ifs <;> exact ⟨rfl, rfl⟩

/-- A fresh solo game always exists (no panic) and satisfies the safety invariant. -/
theorem newSolo_inv (sh : List Card → List Card) (p1 p2 p3 : List Suit) :
    ∃ g, newSolo sh p1 p2 p3 = some g ∧ GameInv g := by
  have hface : ∀ c ∈ (createCastleDeck p1 p2 p3).cards,
      c.rank = .Jack ∨ c.rank = .Queen ∨ c.rank = .King := by
    intro c hc
    unfold createCastleDeck at hc
    simp only [List.mem_append, List.mem_map] at hc
    rcases hc with (⟨s, -, rfl⟩ | ⟨s, -, rfl⟩) | ⟨s, -, rfl⟩ <;> simp
  unfold newSolo
  cases hc : (createCastleDeck p1 p2 p3).cards with
  | nil =>
    rw [revealNextEnemy_empty _ (by exact hc)]
    refine ⟨_, rfl, ?_, ?_⟩
    · intro c hcc
      exact absurd hc (List.ne_nil_of_mem hcc)
    · intro e hh
      cases hh
  | cons c rest =>
    obtain ⟨e, hnew, hstats, -, -, -⟩ :=
      Enemy.new?_of_face c (hface c (by rw [hc]; exact List.mem_cons_self c rest))
    rw [revealNextEnemy_cons _ c rest e (by exact hc) hnew]
    refine ⟨_, rfl, ?_, ?_⟩
    · intro cx hcc
      refine hface cx ?_
      rw [hc]
      exact List.mem_cons_of_mem c hcc
    · intro ex hex
      cases hex
      exact hstats
/-- The safety invariant holds in every reachable state. -/
theorem reachable_inv (g : Game) (h : Reachable g) : GameInv g := by
  induction h with
  | base sh p1 p2 p3 g0 hsh h1 h2 h3 hns =>
    obtain ⟨g', hg', hinv⟩ := newSolo_inv sh p1 p2 p3
    rw [hns] at hg'
    cases hg'
    exact hinv
  | step g g' hr hs ih =>
    cases hs with
    | play sh idx r g2 hsh hpc =>
      exact (playCards_preserves_inv sh g idx ih).2 r g' hpc
    | yieldT => exact ⟨ih.1, ih.2⟩
    | attack => rw [enemyAttack_snd]; exact ih
    | discard idx =>
      obtain ⟨hcast, hen⟩ := discardToSurvive_castle_enemy g idx
      exact ⟨fun c hcc => ih.1 c (by rw [← hcast]; exact hcc),
        fun e hh => ih.2 e (by rw [← hen]; exact hh)⟩
    | jester =>
      obtain ⟨hcast, hen⟩ := useJester_castle_enemy g
      exact ⟨fun c hcc => ih.1 c (by rw [← hcast]; exact hcc),
        fun e hh => ih.2 e (by rw [← hen]; exact hh)⟩

/-- C10: `Enemy::new` panics exactly on non-face ranks, and the panic is
unreachable — in every state reachable from `new_solo` through the
public operations, the castle deck holds only Jack/Queen/King cards,
`play_cards` (the only operation that constructs enemies) never hits the
panic, and every current enemy has `(max_hp, attack)` equal to
`(20,10)`, `(30,15)` or `(40,20)`. -/
theorem C10_enemy_new_panic_unreachable :
    (∀ c : Card, Enemy.new? c = none ↔
      (c.rank ≠ .Jack ∧ c.rank ≠ .Queen ∧ c.rank ≠ .King)) ∧
    (∀ g, Reachable g →
      (∀ c ∈ g.castle_deck.cards,
        c.rank = .Jack ∨ c.rank = .Queen ∨ c.rank = .King) ∧
      (∀ (sh : List Card → List Card) (idx : List Nat),
        playCards sh g idx ≠ none) ∧
      (∀ e, g.current_enemy = some e →
        (e.max_hp = 20 ∧ e.attack = 10) ∨ (e.max_hp = 30 ∧ e.attack = 15) ∨
          (e.max_hp = 40 ∧ e.attack = 20))) := by
  constructor
  · intro c
    cases hr : c.rank <;> simp [Enemy.new?, hr]
  · intro g hreach
    have hinv := reachable_inv g hreach
    exact ⟨hinv.1, fun sh idx => (playCards_preserves_inv sh g idx hinv).1,
      hinv.2⟩

/-- C10 witness: the fresh solo game is reachable and its first play
call cannot panic. -/
theorem C10_witness : playCards id g0solo [0] ≠ none :=
  ((C10_enemy_new_panic_unreachable.2 g0solo
      (Reachable.base id allSuits allSuits allSuits g0solo
        (fun l => List.Perm.refl l) (List.Perm.refl _) (List.Perm.refl _)
        (List.Perm.refl _) (by rfl))).2.1) id [0]

theorem mem_selectedCards (g : Game) (idx : List Nat) (c : Card)
    (h : c ∈ selectedCards g idx) : c ∈ g.player.hand := by
  unfold selectedCards at h
  obtain ⟨i, -, hi⟩ := List.mem_filterMap.mp h
  exact List.get?_mem hi

theorem mem_playHand_fst (p : Player) (idx : List Nat) (c : Card)
    (h : c ∈ (p.playHand idx).1) : c ∈ p.hand := by
  unfold Player.playHand at h
  obtain ⟨i, -, hi⟩ := List.mem_filterMap.mp h
  exact List.get?_mem hi

theorem mem_playHand_snd (p : Player) (idx : List Nat) (c : Card)
    (h : c ∈ (p.playHand idx).2.hand) : c ∈ p.hand := by
  unfold Player.playHand at h
  simp only at h
  obtain ⟨a, hmem, heq⟩ := List.mem_map.mp h
  obtain ⟨i, c'⟩ := a
  cases heq
  have hg := List.mk_mem_enum_iff_getElem?.mp (List.mem_filter.mp hmem).1
  rw [← List.get?_eq_getElem?] at hg
  exact List.get?_mem hg

theorem mem_drawLoop_hand (n : Nat) (p : Player) (d : Deck) (c : Card)
    (h : c ∈ (drawLoop n p d).1.hand) : c ∈ p.hand ∨ c ∈ d.cards := by
  induction n generalizing p d with
  | zero => exact Or.inl h
  | succ n ih =>
    unfold drawLoop at h
    by_cases hf : p.isHandFull
    · rw [if_pos hf] at h
      exact Or.inl h
    · rw [if_neg hf] at h
      cases hd : d.cards with
      | nil =>
        rw [hd] at h
        exact Or.inl h
      | cons x rest =>
        rw [hd] at h
        rcases ih (p.drawCard x) ⟨rest⟩ h with hh | hh
        · unfold Player.drawCard at hh
          simp only [List.mem_append, List.mem_singleton] at hh
          rcases hh with hh | rfl
          · exact Or.inl hh
          · exact Or.inr (List.mem_cons_self _ _)
        · exact Or.inr (List.mem_cons_of_mem _ hh)

theorem mem_drawLoop_deck (n : Nat) (p : Player) (d : Deck) (c : Card)
    (h : c ∈ (drawLoop n p d).2.cards) : c ∈ d.cards := by
  induction n generalizing p d with
  | zero => exact h
  | succ n ih =>
    unfold drawLoop at h
    by_cases hf : p.isHandFull
    · rw [if_pos hf] at h
      exact h
    · rw [if_neg hf] at h
      cases hd : d.cards with
      | nil =>
        rw [hd] at h
        have h' : c ∈ d.cards := h
        rw [hd] at h'
        exact h'
      | cons x rest =>
        rw [hd] at h
        have h' : c ∈ (drawLoop n (p.drawCard x) ⟨rest⟩).2.cards := h
        exact List.mem_cons_of_mem _ (ih (p.drawCard x) ⟨rest⟩ h')

/-- A constructed enemy carries exactly the card it was built from. -/
theorem Enemy.new?_card (c : Card) (e : Enemy) (h : Enemy.new? c = some e) :
    e.card = c := by
  cases hr : c.rank <;> simp [Enemy.new?, hr] at h
  all_goals (subst h; rfl)

/-- The Hearts step only moves cards between the discard pile and the
tavern deck. -/
theorem heartsHeal_mem (sh : List Card → List Card) (hsh : IsPerm sh)
    (g : Game) (p : Nat) (c : Card) :
    (c ∈ (heartsHeal sh g p).tavern_deck.cards →
      c ∈ g.tavern_deck.cards ∨ c ∈ g.discard_pile) ∧
    (c ∈ (heartsHeal sh g p).discard_pile → c ∈ g.discard_pile) := by
  unfold heartsHeal
  split_ifs with h1 h2
  · constructor
    · intro hc
      simp only [Deck.addMultipleToBottom] at hc
      rcases List.mem_append.mp hc with hc | hc
      · exact Or.inl hc
      · exact Or.inr ((hsh g.discard_pile).mem_iff.mp
          (List.take_subset _ _ hc))
    · intro hc
      exact (hsh g.discard_pile).mem_iff.mp (List.drop_subset _ _ hc)
  · exact ⟨Or.inl, id⟩
  · exact ⟨Or.inl, id⟩

/-- The Diamonds step only moves cards from the tavern deck into the
hand. -/
theorem diamondsDraw_mem (g : Game) (p : Nat) (c : Card) :
    (c ∈ (diamondsDraw g p).player.hand →
      c ∈ g.player.hand ∨ c ∈ g.tavern_deck.cards) ∧
    (c ∈ (diamondsDraw g p).tavern_deck.cards → c ∈ g.tavern_deck.cards) := by
  unfold diamondsDraw
  split_ifs with h1
  · exact ⟨fun hc => mem_drawLoop_hand p g.player g.tavern_deck c hc,
      fun hc => mem_drawLoop_deck p g.player g.tavern_deck c hc⟩
  · exact ⟨Or.inl, id⟩

/-- Every card in the hand, tavern deck or discard pile after
`apply_suit_powers` was already in one of those zones before. -/
theorem applySuitPowers_mem (sh : List Card → List Card) (hsh : IsPerm sh)
    (g : Game) (cards : List Card) (a : Nat) (g1 : Game)
    (h : applySuitPowers sh g cards a = .ok g1) (c : Card) :
    (c ∈ g1.player.hand →
      c ∈ g.player.hand ∨ c ∈ g.tavern_deck.cards ∨ c ∈ g.discard_pile) ∧
    (c ∈ g1.tavern_deck.cards →
      c ∈ g.tavern_deck.cards ∨ c ∈ g.discard_pile) ∧
    (c ∈ g1.discard_pile → c ∈ g.discard_pile) := by
  unfold applySuitPowers at h
  cases he : g.current_enemy with
  | none => rw [he] at h; cases h
  | some e =>
    rw [he] at h
    injection h with h
    subst h
    obtain ⟨-, -, hsd, hst, hsp, -, -, -, -, -, -, -⟩ :=
      spadesShield_fields
        (diamondsDraw (heartsHeal sh g (suitPower cards e .Hearts a))
          (suitPower cards e .Diamonds a))
        (suitPower cards e .Spades a)
    obtain ⟨-, -, hdd, -, -, -, -, -, -, -⟩ :=
      diamondsDraw_fields (heartsHeal sh g (suitPower cards e .Hearts a))
        (suitPower cards e .Diamonds a)
    obtain ⟨-, hhp, -, -, -, -, -, -, -, -⟩ :=
      heartsHeal_fields sh g (suitPower cards e .Hearts a)
    obtain ⟨hdm1, hdm2⟩ :=
      diamondsDraw_mem (heartsHeal sh g (suitPower cards e .Hearts a))
        (suitPower cards e .Diamonds a) c
    obtain ⟨hhm1, hhm2⟩ :=
      heartsHeal_mem sh hsh g (suitPower cards e .Hearts a) c
    refine ⟨?_, ?_, ?_⟩
    · intro hc
      rw [hsp] at hc
      rcases hdm1 hc with hc | hc
      · rw [hhp] at hc
        exact Or.inl hc
      · rcases hhm1 hc with hc | hc
        · exact Or.inr (Or.inl hc)
        · exact Or.inr (Or.inr hc)
    · intro hc
      rw [hst] at hc
      exact hhm1 (hdm2 hc)
    · intro hc
      rw [hsd, hdd] at hc
      exact hhm2 hc

/-- Revealing the next enemy preserves the no-Jester invariant: the new
enemy's card comes off the castle deck. -/
theorem revealNextEnemy_nojester (g g' : Game) (hinv : NoJesterInv g)
    (h : revealNextEnemy g = some g') : NoJesterInv g' := by
  cases hc : g.castle_deck.cards with
  | nil =>
    rw [revealNextEnemy_empty g hc] at h
    simp only [Option.some.injEq] at h
    rw [← h]
    exact ⟨hinv.1, hinv.2.1, hinv.2.2.1, hinv.2.2.2.1, hinv.2.2.2.2.1,
      hinv.2.2.2.2.2⟩
  | cons c0 rest =>
    unfold revealNextEnemy Deck.draw at h
    simp only [hc] at h
    cases hn : Enemy.new? c0 with
    | none => rw [hn] at h; cases h
    | some e =>
      rw [hn] at h
      simp only [Option.map_some', Option.some.injEq] at h
      rw [← h]
      refine ⟨hinv.1, hinv.2.1, hinv.2.2.1, ?_, ?_, ?_⟩
      · intro cx hcx
        exact absurd hcx (List.not_mem_nil cx)
      · intro cx hcx
        exact hinv.2.2.2.2.1 cx (by rw [hc]; exact List.mem_cons_of_mem c0 hcx)
      · intro ex hex
        simp only [Option.some.injEq] at hex
        rw [← hex, Enemy.new?_card c0 e hn]
        exact hinv.2.2.2.2.1 c0 (by rw [hc]; exact List.mem_cons_self c0 rest)

/-- Resolving a defeated enemy preserves the no-Jester invariant
provided the defeated enemy's own card is not a Jester. -/
theorem enemyDefeated_nojester (g : Game) (e : Enemy) (g' : Game)
    (hinv : NoJesterInv g) (hec : e.card.rank ≠ Rank.Jester)
    (h : enemyDefeated g e = some g') : NoJesterInv g' := by
  by_cases hex : e.defeatedExactly g.total_damage
  · have h' : revealNextEnemy
        { g with
            tavern_deck := g.tavern_deck.addToTop e.card
            discard_pile := g.discard_pile ++ g.played_cards
            played_cards := [] } = some g' := by
      unfold enemyDefeated at h
      rw [if_pos hex] at h
      exact h
    refine revealNextEnemy_nojester _ g' ?_ h'
    refine ⟨hinv.1, ?_, ?_, ?_, hinv.2.2.2.2.1, hinv.2.2.2.2.2⟩
    · intro c hc
      simp only [Deck.addToTop] at hc
      rcases List.mem_cons.mp hc with rfl | hc
      · exact hec
      · exact hinv.2.1 c hc
    · intro c hc
      rcases List.mem_append.mp hc with hc | hc
      · exact hinv.2.2.1 c hc
      · exact hinv.2.2.2.1 c hc
    · intro c hc
      exact absurd hc (List.not_mem_nil c)
  · have h' : revealNextEnemy
        { g with
            discard_pile := (g.discard_pile ++ [e.card]) ++ g.played_cards
            played_cards := [] } = some g' := by
      unfold enemyDefeated at h
      rw [if_neg hex] at h
      exact h
    refine revealNextEnemy_nojester _ g' ?_ h'
    refine ⟨hinv.1, hinv.2.1, ?_, ?_, hinv.2.2.2.2.1, hinv.2.2.2.2.2⟩
    · intro c hc
      rcases List.mem_append.mp hc with hc | hc
      · rcases List.mem_append.mp hc with hc | hc
        · exact hinv.2.2.1 c hc
        · rcases List.mem_singleton.mp hc with rfl
          exact hec
      · exact hinv.2.2.2.1 c hc
    · intro c hc
      exact absurd hc (List.not_mem_nil c)

/-- `discard_to_survive` preserves the no-Jester invariant: it only
moves cards from the hand to the discard pile. -/
theorem discardToSurvive_nojester (g : Game) (idx : List Nat)
    (hinv : NoJesterInv g) : NoJesterInv (discardToSurvive g idx).2 := by
  unfold discardToSurvive
  cases he : g.current_enemy with
  | none => exact hinv
  | some e =>
    simp only
    split_ifs with hv
    · exact hinv
    · refine ⟨fun c hc => hinv.1 c (mem_playHand_snd _ _ _ hc), hinv.2.1, ?_,
        hinv.2.2.2.1, hinv.2.2.2.2.1, ?_⟩
      · intro c hc
        rcases List.mem_append.mp hc with hc | hc
        · exact hinv.2.2.1 c hc
        · exact hinv.1 c (mem_playHand_fst _ _ _ hc)
      · intro ex hex
        refine hinv.2.2.2.2.2 ex ?_
        rw [he]
        exact hex

/-- `use_jester` preserves the no-Jester invariant: the hand goes to the
discard pile and the new hand comes off the tavern deck. -/
theorem useJester_nojester (g : Game) (hinv : NoJesterInv g) :
    NoJesterInv (useJester g).2 := by
  unfold useJester
  split_ifs with h
  · exact hinv
  · refine ⟨?_, ?_, ?_, hinv.2.2.2.1, hinv.2.2.2.2.1, hinv.2.2.2.2.2⟩
    · intro c hc
      simp only [Player.drawMultiple, Deck.drawMultiple,
        List.nil_append] at hc
      exact hinv.2.1 c (List.take_subset _ _ hc)
    · intro c hc
      simp only [Deck.drawMultiple] at hc
      exact hinv.2.1 c (List.drop_subset _ _ hc)
    · intro c hc
      rcases List.mem_append.mp hc with hc | hc
      · exact hinv.2.2.1 c hc
      · exact hinv.1 c hc

/-- `play_cards` preserves the no-Jester invariant. -/
theorem playCards_nojester (sh : List Card → List Card) (hsh : IsPerm sh)
    (g : Game) (idx : List Nat) (r : Except String Bool) (g' : Game)
    (hinv : NoJesterInv g) (h : playCards sh g idx = some (r, g')) :
    NoJesterInv g' := by
  cases hv : validatePlay g idx with
  | error msg =>
    rw [playCards_validate_error sh g idx msg hv] at h
    simp only [Option.some.injEq, Prod.mk.injEq] at h
    rw [← h.2]
    exact ⟨hinv.1, hinv.2.1, hinv.2.2.1, hinv.2.2.2.1, hinv.2.2.2.2.1,
      hinv.2.2.2.2.2⟩
  | ok u =>
    cases u
    have hne := validatePlay_ok_nonempty g idx hv
    obtain ⟨c0, rest, hsel⟩ := List.exists_cons_of_ne_nil hne
    have hc0 : c0 ∈ g.player.hand :=
      mem_selectedCards g idx c0 (by rw [hsel]; exact List.mem_cons_self c0 rest)
    have hcards : ∀ c ∈ c0 :: rest, c ∈ g.player.hand := by
      intro c hcc
      refine mem_selectedCards g idx c ?_
      rw [hsel]
      exact hcc
    by_cases hj : c0.isJester
    · exact absurd (show c0.rank = Rank.Jester by simpa [Card.isJester] using hj)
        (hinv.1 c0 hc0)
    · have hj' : c0.isJester = false := by simpa using hj
      cases he : g.current_enemy with
      | none =>
        rw [playCards_no_enemy_normal sh g idx c0 rest hv hsel hj' he] at h
        simp only [Option.some.injEq, Prod.mk.injEq] at h
        rw [← h.2]
        exact ⟨fun c hc => hinv.1 c (mem_playHand_snd _ _ _ hc), hinv.2.1,
          hinv.2.2.1, hinv.2.2.2.1, hinv.2.2.2.2.1, hinv.2.2.2.2.2⟩
      | some e =>
        obtain ⟨g1y, happy, hcey, hcastley, hplayedy, -, -, -, -, -, -⟩ :=
          applySuitPowers_ok sh
            { g with
                jester_played_this_turn := false
                player := (g.player.playHand idx).2 }
            (c0 :: rest) ((List.map Card.value (c0 :: rest)).sum) e (by exact he)
        by_cases hl : comboDamage e (c0 :: rest)
            ((List.map Card.value (c0 :: rest)).sum) < e.current_hp
        · obtain ⟨g1, happ, hpc⟩ :=
            playCards_normal_nonlethal sh g idx c0 rest e hv hsel hj' he hl
          have heq : g1 = g1y := by
            rw [happ] at happy
            injection happy with heq
          rw [← heq] at hcastley hplayedy
          have hmem := applySuitPowers_mem sh hsh
            { g with
                jester_played_this_turn := false
                player := (g.player.playHand idx).2 }
            (c0 :: rest) ((List.map Card.value (c0 :: rest)).sum) g1 happ
          rw [hpc] at h
          simp only [Option.some.injEq, Prod.mk.injEq] at h
          rw [← h.2]
          refine ⟨?_, ?_, ?_, ?_, ?_, ?_⟩
          · intro c hc
            rcases (hmem c).1 hc with hcc | hcc | hcc
            · exact hinv.1 c (mem_playHand_snd _ _ _ hcc)
            · exact hinv.2.1 c hcc
            · exact hinv.2.2.1 c hcc
          · intro c hc
            rcases (hmem c).2.1 hc with hcc | hcc
            · exact hinv.2.1 c hcc
            · exact hinv.2.2.1 c hcc
          · intro c hc
            exact hinv.2.2.1 c ((hmem c).2.2 hc)
          · intro c hc
            rcases List.mem_append.mp hc with hcc | hcc
            · rw [hplayedy] at hcc
              exact hinv.2.2.2.1 c hcc
            · exact hinv.1 c (hcards c hcc)
          · intro c hc
            rw [show g1.castle_deck = g.castle_deck from hcastley] at hc
            exact hinv.2.2.2.2.1 c hc
          · intro ex hex
            have hex' : some (e.takeDamage (comboDamage e (c0 :: rest)
                ((List.map Card.value (c0 :: rest)).sum))) = some ex := hex
            injection hex' with hex''
            rw [← hex'']
            exact hinv.2.2.2.2.2 e he
        · obtain ⟨g1, happ, hpc⟩ :=
            playCards_normal_lethal sh g idx c0 rest e hv hsel hj' he
              (Nat.le_of_not_lt hl)
          have heq : g1 = g1y := by
            rw [happ] at happy
            injection happy with heq
          rw [← heq] at hcastley hplayedy
          have hmem := applySuitPowers_mem sh hsh
            { g with
                jester_played_this_turn := false
                player := (g.player.playHand idx).2 }
            (c0 :: rest) ((List.map Card.value (c0 :: rest)).sum) g1 happ
          rw [hpc] at h
          cases hdef : enemyDefeated
              { g1 with
                  played_cards := g1.played_cards ++ (c0 :: rest)
                  total_damage := u8add g1.total_damage
                    (comboDamage e (c0 :: rest)
                      ((List.map Card.value (c0 :: rest)).sum))
                  current_enemy := none }
              (e.takeDamage (comboDamage e (c0 :: rest)
                ((List.map Card.value (c0 :: rest)).sum))) with
          | none =>
            rw [hdef] at h
            cases h
          | some g3 =>
            rw [hdef] at h
            simp only [Option.some.injEq, Prod.mk.injEq] at h
            rw [← h.2]
            refine enemyDefeated_nojester _ _ g3 ?_ ?_ hdef
            · refine ⟨?_, ?_, ?_, ?_, ?_, ?_⟩
              · intro c hc
                rcases (hmem c).1 hc with hcc | hcc | hcc
                · exact hinv.1 c (mem_playHand_snd _ _ _ hcc)
                · exact hinv.2.1 c hcc
                · exact hinv.2.2.1 c hcc
              · intro c hc
                rcases (hmem c).2.1 hc with hcc | hcc
                · exact hinv.2.1 c hcc
                · exact hinv.2.2.1 c hcc
              · intro c hc
                exact hinv.2.2.1 c ((hmem c).2.2 hc)
              · intro c hc
                rcases List.mem_append.mp hc with hcc | hcc
                · rw [hplayedy] at hcc
                  exact hinv.2.2.2.1 c hcc
                · exact hinv.1 c (hcards c hcc)
              · intro c hc
                rw [show g1.castle_deck = g.castle_deck from hcastley] at hc
                exact hinv.2.2.2.2.1 c hc
              · intro ex hex
                have hex' : (none : Option Enemy) = some ex := hex
                cases hex'
            · exact hinv.2.2.2.2.2 e he

/-- A fresh solo game satisfies the no-Jester invariant: the tavern deck
is dealt with zero Jesters and the castle holds only face cards. -/
theorem newSolo_nojester (sh : List Card → List Card) (hsh : IsPerm sh)
    (p1 p2 p3 : List Suit) (g : Game)
    (h : newSolo sh p1 p2 p3 = some g) : NoJesterInv g := by
  have hbase : ∀ c ∈ ((allSuits.flatMap fun s => tavernRanks.map fun r => Card.mk s r)
      ++ List.replicate 0 (Card.mk .Hearts .Jester)), c.rank ≠ Rank.Jester := by
    decide
  have htav : ∀ c ∈ (createTavernDeck sh 0).cards, c.rank ≠ Rank.Jester := by
    intro c hc
    have hc' : c ∈ sh ((allSuits.flatMap fun s => tavernRanks.map fun r => Card.mk s r)
        ++ List.replicate 0 (Card.mk .Hearts .Jester)) := hc
    exact hbase c ((hsh _).mem_iff.mp hc')
  have hcas : ∀ c ∈ (createCastleDeck p1 p2 p3).cards, c.rank ≠ Rank.Jester := by
    intro c hc
    unfold createCastleDeck at hc
    simp only [List.mem_append, List.mem_map] at hc
    rcases hc with (⟨s, -, rfl⟩ | ⟨s, -, rfl⟩) | ⟨s, -, rfl⟩ <;> simp
  have h' : revealNextEnemy
      { castle_deck := createCastleDeck p1 p2 p3
        tavern_deck := ((createTavernDeck sh 0).drawMultiple 8).2
        discard_pile := []
        current_enemy := none
        player := (Player.mk "Hero" [] 8).drawMultiple
          ((createTavernDeck sh 0).drawMultiple 8).1
        played_cards := []
        shield_value := 0
        total_damage := 0
        game_state := .Playing
        jester_count := 2
        jesters_used := 0
        jester_played_this_turn := false } = some g := h
  refine revealNextEnemy_nojester _ g ?_ h'
  refine ⟨?_, ?_, ?_, ?_, hcas, ?_⟩
  · intro c hc
    simp only [Player.drawMultiple, Deck.drawMultiple, List.nil_append] at hc
    exact htav c (List.take_subset _ _ hc)
  · intro c hc
    simp only [Deck.drawMultiple] at hc
    exact htav c (List.drop_subset _ _ hc)
  · intro c hc
    exact absurd hc (List.not_mem_nil c)
  · intro c hc
    exact absurd hc (List.not_mem_nil c)
  · intro ex hex
    cases hex

/-- The no-Jester invariant holds in every reachable solo state: in
particular no Jester card is ever in the hand, so `play_cards` can never
execute its Jester branch in a reachable solo game. -/
theorem reachable_nojester (g : Game) (h : Reachable g) : NoJesterInv g := by
  induction h with
  | base sh p1 p2 p3 g0 hsh h1 h2 h3 hns =>
    exact newSolo_nojester sh hsh p1 p2 p3 g0 hns
  | step g g' hr hs ih =>
    cases hs with
    | play sh idx r g2 hsh hpc =>
      exact playCards_nojester sh hsh g idx r g' ih hpc
    | yieldT =>
      exact ⟨ih.1, ih.2.1, ih.2.2.1, ih.2.2.2.1, ih.2.2.2.2.1, ih.2.2.2.2.2⟩
    | attack =>
      rw [enemyAttack_snd]
      exact ih
    | discard idx => exact discardToSurvive_nojester g idx ih
    | jester => exact useJester_nojester g ih

/-- C6: playing a lone validated Jester via `play_cards` against a
current enemy cancels that enemy's immunity, and exactly when the
enemy's suit is Spades adds the summed value of the Spades cards in
`played_cards` (the cards blocked earlier in this encounter) to
`shield_value` — once, in this call; the Jester moves to the discard
pile, `jester_played_this_turn` is set, the call reports the enemy as
not defeated, and it deals no damage and applies no suit powers
(`total_damage`, `played_cards`, both decks and the enemy's hit points
are untouched).  Moreover the retroactive grant cannot recur within an
encounter in solo play: in every reachable solo state the hand holds no
Jester card at all, so `play_cards` never executes its Jester branch
there. -/
theorem C6_jester_spades_retroactive :
    (∀ (sh : List Card → List Card) (g : Game) (i : Nat) (c : Card) (e : Enemy),
      g.player.hand.get? i = some c → c.rank = .Jester →
      g.current_enemy = some e → g.shield_value + spadesRetro g < 256 →
      playCards sh g [i] = some (.ok false,
        { g with
            player := (g.player.playHand [i]).2
            current_enemy := some e.cancelImmunity
            shield_value :=
              if e.card.suit = Suit.Spades then g.shield_value + spadesRetro g
              else g.shield_value
            discard_pile := g.discard_pile ++ [c]
            jester_played_this_turn := true })) ∧
    (∀ g, Reachable g → ∀ c ∈ g.player.hand, c.rank ≠ Rank.Jester) := by
  constructor
  · intro sh g i c e hc hj he hov
    have hsel : selectedCards g [i] = [c] := by
      simp only [selectedCards, List.filterMap_cons, List.filterMap_nil, hc]
    have hjB : c.isJester = true := by simp [Card.isJester, hj]
    have hok : validatePlay g [i] = .ok () := by
      unfold validatePlay
      rw [if_neg (by simp)]
      rw [if_neg (by rw [hsel]; simp)]
      rw [hsel]
      unfold validateCombo
      rw [if_pos (by simp [hjB])]
      rw [if_neg (by simp)]
    rw [playCards_jester sh g [i] c e hok hsel hjB he]
    have hfield : (if e.card.suit = Suit.Spades ∧ 0 < spadesRetro g then
        u8add g.shield_value (spadesRetro g) else g.shield_value) =
        (if e.card.suit = Suit.Spades then g.shield_value + spadesRetro g
         else g.shield_value) := by
      by_cases hs : e.card.suit = Suit.Spades
      · by_cases hr : 0 < spadesRetro g
        · simp [hs, hr, u8add, Nat.mod_eq_of_lt hov]
        · have hz : spadesRetro g = 0 := by omega
          simp [hs, hr, hz]
      · simp [hs]
    rw [hfield]
  · intro g hr
    exact (reachable_nojester g hr).1

/-- C6 witness: the Jester against a Jack of Spades with a previously
blocked 5♠ in `played_cards` retroactively raises the shield to 5. -/
theorem C6_witness :
    playCards id
        { gameWithHand [⟨Suit.Hearts, Rank.Jester⟩] with
            current_enemy := some ⟨⟨Suit.Spades, Rank.Jack⟩, 20, 20, 10, false⟩
            played_cards := [⟨Suit.Spades, Rank.Five⟩, ⟨Suit.Hearts, Rank.Two⟩] }
        [0] =
      some (.ok false,
        { gameWithHand [] with
            current_enemy := some ⟨⟨Suit.Spades, Rank.Jack⟩, 20, 20, 10, true⟩
            played_cards := [⟨Suit.Spades, Rank.Five⟩, ⟨Suit.Hearts, Rank.Two⟩]
            shield_value := 5
            discard_pile := [⟨Suit.Hearts, Rank.Jester⟩]
            jester_played_this_turn := true }) := by
  have h := C6_jester_spades_retroactive.1 id
    { gameWithHand [⟨Suit.Hearts, Rank.Jester⟩] with
        current_enemy := some ⟨⟨Suit.Spades, Rank.Jack⟩, 20, 20, 10, false⟩
        played_cards := [⟨Suit.Spades, Rank.Five⟩, ⟨Suit.Hearts, Rank.Two⟩] }
    0 ⟨Suit.Hearts, Rank.Jester⟩ ⟨⟨Suit.Spades, Rank.Jack⟩, 20, 20, 10, false⟩
    rfl rfl rfl (by decide)
  rw [h]
  rfl

/-- C2 (amended): for a validated non-Jester play against a current
enemy, the attack value is the sum of the played cards' rank values; the
damage applied is exactly that value, or exactly twice it when a card of
this combo is Clubs and the enemy is not immune to Clubs; on a
non-lethal hit `total_damage` grows by exactly that damage and the
enemy's hit points drop by exactly it (on a lethal hit the HP loss
saturates at zero, see the counterexample).  The doubling test reads
only this call's cards, never `played_cards`, so Clubs played in an
earlier turn cannot double this turn's damage. -/
theorem C2_damage_rule (sh : List Card → List Card) (g : Game)
    (idx : List Nat) (c0 : Card) (rest : List Card) (e : Enemy)
    (hok : validatePlay g idx = .ok ())
    (hsel : selectedCards g idx = c0 :: rest)
    (hnj : ∀ c ∈ (c0 :: rest), c.rank ≠ Rank.Jester)
    (he : g.current_enemy = some e)
    (hnl : comboDamage e (c0 :: rest) ((List.map Card.value (c0 :: rest)).sum)
      < e.current_hp)
    (hov : g.total_damage +
      comboDamage e (c0 :: rest) ((List.map Card.value (c0 :: rest)).sum) < 256)
    (h2a : 2 * (List.map Card.value (c0 :: rest)).sum < 256) :
    ∃ g', playCards sh g idx = some (.ok false, g') ∧
      comboDamage e (c0 :: rest) ((List.map Card.value (c0 :: rest)).sum) =
        (if clubsActive e (c0 :: rest) then
          2 * (List.map Card.value (c0 :: rest)).sum
        else (List.map Card.value (c0 :: rest)).sum) ∧
      g'.total_damage = g.total_damage +
        comboDamage e (c0 :: rest) ((List.map Card.value (c0 :: rest)).sum) ∧
      g'.current_enemy = some (e.takeDamage
        (comboDamage e (c0 :: rest) ((List.map Card.value (c0 :: rest)).sum))) ∧
      e.current_hp - (e.takeDamage
          (comboDamage e (c0 :: rest)
            ((List.map Card.value (c0 :: rest)).sum))).current_hp =
        comboDamage e (c0 :: rest) ((List.map Card.value (c0 :: rest)).sum) := by
  have hj : c0.isJester = false := by
    simp [Card.isJester, hnj c0 (List.mem_cons_self c0 rest)]
  obtain ⟨g1, happx, hpc⟩ :=
    playCards_normal_nonlethal sh g idx c0 rest e hok hsel hj he hnl
  obtain ⟨g1', happ', -, -, -, htot, -, -, -, -, -⟩ :=
    applySuitPowers_ok sh
      { g with
          jester_played_this_turn := false
          player := (g.player.playHand idx).2 }
      (c0 :: rest) ((List.map Card.value (c0 :: rest)).sum) e (by exact he)
  have heq : g1' = g1 := by
    rw [happ'] at happx
    injection happx with h
  rw [heq] at htot
  refine ⟨_, hpc, ?_, ?_, rfl, ?_⟩
  · unfold comboDamage u8mul2
    split_ifs
    · exact Nat.mod_eq_of_lt h2a
    · rfl
  · show u8add g1.total_damage _ = _
    rw [htot]
    unfold u8add
    exact Nat.mod_eq_of_lt hov
  · unfold Enemy.takeDamage
    simp only
    omega

/-- C2 counterexample: the claim as stated is false in the lethal
overkill case — a 10-valued play against an enemy with 5 remaining hit
points defeats it, but the HP loss is 5 (saturating), not the attack
value 10. -/
theorem C2_counterexample :
    ((gameWithHand [⟨Suit.Spades, Rank.Ten⟩]).player.hand.map Card.value).sum
        = 10 ∧
    (playCards id
        { gameWithHand [⟨Suit.Spades, Rank.Ten⟩] with
            current_enemy := some ⟨⟨Suit.Hearts, Rank.Jack⟩, 20, 5, 10, false⟩
            total_damage := 15 } [0]).map (fun rg => rg.1) =
      some (.ok true) ∧
    ¬ ((⟨⟨Suit.Hearts, Rank.Jack⟩, 20, 5, 10, false⟩ : Enemy).current_hp -
        ((⟨⟨Suit.Hearts, Rank.Jack⟩, 20, 5, 10, false⟩ : Enemy).takeDamage
          10).current_hp = 10) :=
  ⟨rfl, rfl, by decide⟩

/-- C2 witness: 5♣ against a non-immune Jack deals exactly 2 x 5 = 10
damage. -/
theorem C2_witness :
    (playCards id
        { gameWithHand [⟨Suit.Clubs, Rank.Five⟩] with
            current_enemy := some ⟨⟨Suit.Hearts, Rank.Jack⟩, 20, 20, 10, false⟩ }
        [0]).map
        (fun rg => (rg.1, rg.2.total_damage,
          rg.2.current_enemy.map Enemy.current_hp)) =
      some (.ok false, 10, some 10) := by
  obtain ⟨g', hpc, hdouble, htot, hen, hloss⟩ :=
    C2_damage_rule id
      { gameWithHand [⟨Suit.Clubs, Rank.Five⟩] with
          current_enemy := some ⟨⟨Suit.Hearts, Rank.Jack⟩, 20, 20, 10, false⟩ }
      [0] ⟨Suit.Clubs, Rank.Five⟩ []
      ⟨⟨Suit.Hearts, Rank.Jack⟩, 20, 20, 10, false⟩
      rfl rfl (by decide) rfl (by decide) (by decide) (by decide)
  rw [hpc]
  simp only [Option.map_some']
  rw [htot, hen]
  rfl

/-- The Diamonds draw loop fills the hand by `min(power, room, deck)`. -/
theorem drawLoop_hand_length (n : Nat) (p : Player) (d : Deck) :
    (drawLoop n p d).1.hand.length =
      p.hand.length +
        min n (min (p.max_hand_size - p.hand.length) d.cards.length) := by
  induction n generalizing p d with
  | zero => simp [drawLoop]
  | succ n ih =>
    unfold drawLoop
    by_cases hf : p.isHandFull
    · rw [if_pos hf]
      have hz : p.max_hand_size - p.hand.length = 0 := by
        unfold Player.isHandFull at hf
        simp only [decide_eq_true_eq] at hf
        omega
      simp [hz]
    · rw [if_neg hf]
      have hroom : p.hand.length < p.max_hand_size := by
        unfold Player.isHandFull at hf
        simp only [decide_eq_true_eq] at hf
        omega
      cases hd : d.cards with
      | nil => simp
      | cons c rest =>
        rw [ih]
        unfold Player.drawCard
        simp only [List.length_append, List.length_cons, List.length_nil]
        omega

/-- The Diamonds draw loop moves cards: hand plus deck is conserved. -/
theorem drawLoop_conservation (n : Nat) (p : Player) (d : Deck) :
    (drawLoop n p d).1.hand.length + (drawLoop n p d).2.cards.length =
      p.hand.length + d.cards.length := by
  induction n generalizing p d with
  | zero => simp [drawLoop]
  | succ n ih =>
    unfold drawLoop
    by_cases hf : p.isHandFull
    · rw [if_pos hf]
    · rw [if_neg hf]
      cases hd : d.cards with
      | nil => simp [hd]
      | cons c rest =>
        rw [ih]
        unfold Player.drawCard
        simp only [List.length_append, List.length_cons, List.length_nil]
        omega

/-- With enough discard, the Hearts step moves exactly `power` cards from the discard pile to the tavern deck (the shuffle permutes, so lengths are preserved). -/
theorem heartsHeal_lengths (sh : List Card → List Card) (hsh : IsPerm sh)
    (g : Game) (p : Nat) (hp : 0 < p) (hlen : p ≤ g.discard_pile.length) :
    (heartsHeal sh g p).discard_pile.length = g.discard_pile.length - p ∧
      (heartsHeal sh g p).tavern_deck.cards.length =
        g.tavern_deck.cards.length + p := by
  unfold heartsHeal
  have hmin : min p g.discard_pile.length = p := by omega
  have hlensh : (sh g.discard_pile).length = g.discard_pile.length :=
    (hsh _).length_eq
  rw [if_pos hp, if_pos (by omega)]
  constructor
  · simp only [List.length_drop, hmin, hlensh]
  · simp only [Deck.addMultipleToBottom, List.length_append,
      List.length_take, hmin, hlensh]

/-- C7: within one `apply_suit_powers` call with Hearts and Diamonds
both active and unblocked, Hearts fully resolves before Diamonds — with
an empty tavern deck, Diamonds still draws up to `attack_value` cards,
which can only be the cards Hearts just returned from the discard
pile. -/
theorem C7_hearts_before_diamonds (sh : List Card → List Card)
    (hsh : IsPerm sh) (g : Game) (cards : List Card) (a : Nat) (e : Enemy)
    (he : g.current_enemy = some e)
    (hH : (cards.any fun c => c.suit = Suit.Hearts) = true)
    (hHi : e.isImmuneTo .Hearts = false)
    (hD : (cards.any fun c => c.suit = Suit.Diamonds) = true)
    (hDi : e.isImmuneTo .Diamonds = false)
    (ha : 0 < a) (htav : g.tavern_deck.cards = [])
    (hdisc : a ≤ g.discard_pile.length) :
    ∃ g', applySuitPowers sh g cards a = .ok g' ∧
      g'.discard_pile.length = g.discard_pile.length - a ∧
      g'.player.hand.length = g.player.hand.length +
        min a (g.player.max_hand_size - g.player.hand.length) ∧
      g'.tavern_deck.cards.length =
        a - min a (g.player.max_hand_size - g.player.hand.length) := by
  unfold applySuitPowers
  rw [he]
  refine ⟨_, rfl, ?_⟩
  have hHp : suitPower cards e .Hearts a = a := by
    unfold suitPower
    rw [if_pos ⟨hH, by rw [hHi]; exact Bool.false_ne_true⟩]
  have hDp : suitPower cards e .Diamonds a = a := by
    unfold suitPower
    rw [if_pos ⟨hD, by rw [hDi]; exact Bool.false_ne_true⟩]
  rw [hHp, hDp]
  obtain ⟨hd1, ht1⟩ := heartsHeal_lengths sh hsh g a ha hdisc
  obtain ⟨he1, hp1, -, -, -, -, -, -, -, -⟩ := heartsHeal_fields sh g a
  rw [htav] at ht1
  simp only [List.length_nil, Nat.zero_add] at ht1
  -- Diamonds step
  unfold diamondsDraw
  rw [if_pos ha, hp1]
  have hhand := drawLoop_hand_length a g.player (heartsHeal sh g a).tavern_deck
  have hcons := drawLoop_conservation a g.player (heartsHeal sh g a).tavern_deck
  rw [ht1] at hhand hcons
  obtain ⟨-, -, sdisc, stav, splay, -, -, -, -, -, -, -⟩ :=
    spadesShield_fields
      { heartsHeal sh g a with
          player := (drawLoop a g.player (heartsHeal sh g a).tavern_deck).1
          tavern_deck := (drawLoop a g.player (heartsHeal sh g a).tavern_deck).2 }
      (suitPower cards e .Spades a)
  refine ⟨?_, ?_, ?_⟩
  · rw [sdisc]
    simp only
    exact hd1
  · rw [splay]
    simp only
    rw [hhand]
    omega
  · rw [stav]
    simp only
    omega

/-- C7 witness: an Ace♥+Ace♦ combo (attack 2) against a Clubs Jack with
an empty tavern deck and three discarded cards heals 2 and then draws
those same 2 cards. -/
theorem C7_witness :
    (applySuitPowers id
        { gameWithHand [⟨Suit.Hearts, Rank.Two⟩] with
            current_enemy := some ⟨⟨Suit.Clubs, Rank.Jack⟩, 20, 20, 10, false⟩
            discard_pile := [⟨Suit.Spades, Rank.Two⟩, ⟨Suit.Spades, Rank.Three⟩,
              ⟨Suit.Spades, Rank.Four⟩] }
        [⟨Suit.Hearts, Rank.Ace⟩, ⟨Suit.Diamonds, Rank.Ace⟩] 2).toOption.map
        (fun g' => (g'.discard_pile.length, g'.player.hand.length,
          g'.tavern_deck.cards.length)) =
      some (1, 3, 0) := by
  obtain ⟨g', happ, h1, h2, h3⟩ :=
    C7_hearts_before_diamonds id (fun l => List.Perm.refl l)
      { gameWithHand [⟨Suit.Hearts, Rank.Two⟩] with
          current_enemy := some ⟨⟨Suit.Clubs, Rank.Jack⟩, 20, 20, 10, false⟩
          discard_pile := [⟨Suit.Spades, Rank.Two⟩, ⟨Suit.Spades, Rank.Three⟩,
            ⟨Suit.Spades, Rank.Four⟩] }
      [⟨Suit.Hearts, Rank.Ace⟩, ⟨Suit.Diamonds, Rank.Ace⟩] 2
      ⟨⟨Suit.Clubs, Rank.Jack⟩, 20, 20, 10, false⟩
      rfl rfl rfl rfl rfl (by decide) rfl (by decide)
  rw [happ]
  simp only [Except.toOption, Option.map_some']
  rw [h1, h2, h3]
  rfl

/-- Revealing an enemy never touches the Jester counters, the player or the per-turn flag. -/
theorem revealNextEnemy_preserves (g g' : Game)
    (h : revealNextEnemy g = some g') :
    g'.jester_count = g.jester_count ∧ g'.jesters_used = g.jesters_used ∧
      g'.player = g.player ∧
      g'.jester_played_this_turn = g.jester_played_this_turn := by
  cases hc : g.castle_deck.cards with
  | nil =>
    rw [revealNextEnemy_empty g hc] at h
    simp only [Option.some.injEq] at h
    rw [← h]
    exact ⟨rfl, rfl, rfl, rfl⟩
  | cons c rest =>
    unfold revealNextEnemy Deck.draw at h
    simp only [hc] at h
    cases hn : Enemy.new? c with
    | none =>
      simp only [hn, Option.map_none'] at h
      cases h
    | some e =>
      simp only [hn, Option.map_some', Option.some.injEq] at h
      rw [← h]
      exact ⟨rfl, rfl, rfl, rfl⟩

/-- Enemy defeat resolution never touches the Jester counters, the player or the per-turn flag. -/
theorem enemyDefeated_preserves (g : Game) (e : Enemy) (g' : Game)
    (h : enemyDefeated g e = some g') :
    g'.jester_count = g.jester_count ∧ g'.jesters_used = g.jesters_used ∧
      g'.player = g.player ∧
      g'.jester_played_this_turn = g.jester_played_this_turn := by
  unfold enemyDefeated at h
  split_ifs at h <;>
  · obtain ⟨a, b, cH, d⟩ := revealNextEnemy_preserves _ _ h
    exact ⟨a, b, cH, d⟩

/-- `play_cards` never touches the Jester counters. -/
theorem playCards_counters (sh : List Card → List Card) (g : Game)
    (idx : List Nat) (r : Except String Bool) (g' : Game)
    (h : playCards sh g idx = some (r, g')) :
    g'.jester_count = g.jester_count ∧ g'.jesters_used = g.jesters_used := by
  cases hv : validatePlay g idx with
  | error msg =>
    rw [playCards_validate_error sh g idx msg hv] at h
    simp only [Option.some.injEq, Prod.mk.injEq] at h
    rw [← h.2]
    exact ⟨rfl, rfl⟩
  | ok u =>
    cases u
    obtain ⟨c0, rest, hsel⟩ :=
      List.exists_cons_of_ne_nil (validatePlay_ok_nonempty g idx hv)
    by_cases hj : c0.isJester
    · have hr := validate_ok_jester_single g idx c0 rest hv hsel hj
      subst hr
      cases he : g.current_enemy with
      | none =>
        rw [playCards_jester_no_enemy sh g idx c0 hv hsel hj he] at h
        simp only [Option.some.injEq, Prod.mk.injEq] at h
        rw [← h.2]
        exact ⟨rfl, rfl⟩
      | some e =>
        rw [playCards_jester sh g idx c0 e hv hsel hj he] at h
        simp only [Option.some.injEq, Prod.mk.injEq] at h
        rw [← h.2]
        exact ⟨rfl, rfl⟩
    · have hj' : c0.isJester = false := by simpa using hj
      cases he : g.current_enemy with
      | none =>
        rw [playCards_no_enemy_normal sh g idx c0 rest hv hsel hj' he] at h
        simp only [Option.some.injEq, Prod.mk.injEq] at h
        rw [← h.2]
        exact ⟨rfl, rfl⟩
      | some e =>
        obtain ⟨g1, happ', -, -, -, -, -, hcnt, husd, -, -⟩ :=
          applySuitPowers_ok sh
            { g with
                jester_played_this_turn := false
                player := (g.player.playHand idx).2 }
            (c0 :: rest) ((List.map Card.value (c0 :: rest)).sum) e (by exact he)
        by_cases hl : comboDamage e (c0 :: rest)
            ((List.map Card.value (c0 :: rest)).sum) < e.current_hp
        · obtain ⟨g1x, happx, hpc⟩ :=
            playCards_normal_nonlethal sh g idx c0 rest e hv hsel hj' he hl
          have heq : g1 = g1x := by
            rw [happ'] at happx
            injection happx with hx
          rw [← heq] at hpc
          rw [hpc] at h
          simp only [Option.some.injEq, Prod.mk.injEq] at h
          rw [← h.2]
          exact ⟨hcnt, husd⟩
        · obtain ⟨g1x, happx, hpc⟩ :=
            playCards_normal_lethal sh g idx c0 rest e hv hsel hj' he
              (Nat.le_of_not_lt hl)
          have heq : g1 = g1x := by
            rw [happ'] at happx
            injection happx with hx
          rw [← heq] at hpc
          rw [hpc] at h
          cases henemy : enemyDefeated
              { g1 with
                  played_cards := g1.played_cards ++ (c0 :: rest)
                  total_damage := u8add g1.total_damage
                    (comboDamage e (c0 :: rest)
                      ((List.map Card.value (c0 :: rest)).sum))
                  current_enemy := none }
              (e.takeDamage (comboDamage e (c0 :: rest)
                ((List.map Card.value (c0 :: rest)).sum))) with
          | none =>
            rw [henemy] at h
            cases h
          | some g3 =>
            rw [henemy] at h
            simp only [Option.some.injEq, Prod.mk.injEq] at h
            obtain ⟨a, b, -, -⟩ := enemyDefeated_preserves _ _ _ henemy
            rw [← h.2]
            exact ⟨by rw [a]; exact hcnt, by rw [b]; exact husd⟩

/-- `use_jester` under the usage limit: full characterisation. -/
theorem useJester_ok (g : Game) (hu : g.jesters_used < g.jester_count) :
    useJester g = (.ok (),
      { g with
          player := { g.player with hand := g.tavern_deck.cards.take 8 }
          discard_pile := g.discard_pile ++ g.player.hand
          tavern_deck := ⟨g.tavern_deck.cards.drop 8⟩
          jesters_used := u8add g.jesters_used 1 }) := by
  unfold useJester
  rw [if_neg (by omega)]
  rfl

/-- `use_jester` at the usage limit fails and leaves the state unchanged. -/
theorem useJester_err (g : Game) (hu : g.jester_count ≤ g.jesters_used) :
    useJester g = (.error "No Jesters remaining", g) := by
  unfold useJester
  rw [if_pos hu]

/-- C9: a fresh solo game has `jester_count = 2` and `jesters_used = 0`;
`use_jester` succeeds exactly while `jesters_used < jester_count` — each
success discards the whole hand, refills to at most 8 cards from the
tavern deck (fewer when the deck is short) and increments
`jesters_used` by one — and once the limit is reached every call fails
with "No Jesters remaining" leaving the state unchanged; no other
operation changes either counter, so from `new_solo` exactly 2 calls can
ever succeed. -/
theorem C9_jester_power_exhaustion :
    (∀ (sh : List Card → List Card) (p1 p2 p3 : List Suit) (g : Game),
      newSolo sh p1 p2 p3 = some g →
      g.jester_count = 2 ∧ g.jesters_used = 0) ∧
    (∀ g : Game, g.jesters_used < g.jester_count →
      (useJester g).1 = .ok () ∧
      (useJester g).2.player.hand = g.tavern_deck.cards.take 8 ∧
      (useJester g).2.player.hand.length = min 8 g.tavern_deck.cards.length ∧
      (useJester g).2.discard_pile = g.discard_pile ++ g.player.hand ∧
      (useJester g).2.jester_count = g.jester_count ∧
      (g.jesters_used + 1 < 256 →
        (useJester g).2.jesters_used = g.jesters_used + 1)) ∧
    (∀ g : Game, g.jester_count ≤ g.jesters_used →
      useJester g = (.error "No Jesters remaining", g)) ∧
    (∀ (sh : List Card → List Card) (g : Game) (idx : List Nat)
      (r : Except String Bool) (g' : Game),
      playCards sh g idx = some (r, g') →
      g'.jester_count = g.jester_count ∧ g'.jesters_used = g.jesters_used) ∧
    (∀ g : Game, (yieldTurn g).2.jester_count = g.jester_count ∧
      (yieldTurn g).2.jesters_used = g.jesters_used) ∧
    (∀ g : Game, (enemyAttack g).2.jester_count = g.jester_count ∧
      (enemyAttack g).2.jesters_used = g.jesters_used) ∧
    (∀ (g : Game) (idx : List Nat),
      (discardToSurvive g idx).2.jester_count = g.jester_count ∧
      (discardToSurvive g idx).2.jesters_used = g.jesters_used) := by
  refine ⟨?_, ?_, ?_, ?_, ?_, ?_, ?_⟩
  · intro sh p1 p2 p3 g h
    obtain ⟨a, b, -, -⟩ := revealNextEnemy_preserves _ g h
    exact ⟨a, b⟩
  · intro g hu
    rw [useJester_ok g hu]
    refine ⟨rfl, rfl, ?_, rfl, rfl, ?_⟩
    · simp [List.length_take]
    · intro hb
      show u8add g.jesters_used 1 = g.jesters_used + 1
      unfold u8add
      omega
  · exact useJester_err
  · exact playCards_counters
  · intro g; exact ⟨rfl, rfl⟩
  · intro g
    rw [enemyAttack_snd]
    exact ⟨rfl, rfl⟩
  · intro g idx
    cases he : g.current_enemy with
    | none => simp [discardToSurvive, he]
    | some e =>
      simp only [discardToSurvive, he]
      split_ifs <;> exact ⟨rfl, rfl⟩

/-- C9 witness: at the limit the call fails and mutates nothing; under
the limit it succeeds and increments the counter. -/
theorem C9_witness :
    useJester { gameWithHand [] with jesters_used := 2 } =
        (.error "No Jesters remaining",
          { gameWithHand [] with jesters_used := 2 }) ∧
      (useJester (gameWithHand [⟨Suit.Hearts, Rank.Five⟩])).1 = .ok () ∧
      (useJester (gameWithHand [⟨Suit.Hearts, Rank.Five⟩])).2.jesters_used = 1 :=
  ⟨C9_jester_power_exhaustion.2.2.1 _ (by decide),
   (C9_jester_power_exhaustion.2.1 _ (by decide)).1,
   by
    rw [(C9_jester_power_exhaustion.2.1 (gameWithHand [⟨Suit.Hearts, Rank.Five⟩])
      (by decide)).2.2.2.2.2 (by decide)]
    rfl⟩

/-- C8: revealing a new enemy resets `shield_value` and `total_damage`
to 0 and clears `played_cards`; within an encounter (no reveal) no
operation resets them — a failing `play_cards`, a Jester play and a
non-lethal play keep the shield non-decreasing (wrap-free under the
stated `u8` bounds), `total_damage` grows by exactly the damage dealt,
`played_cards` only grows, and `yield_turn`, `enemy_attack`,
`discard_to_survive` and `use_jester` leave all three untouched. -/
theorem C8_shield_monotonic_reset_on_reveal :
    (∀ (g : Game) (c : Card) (rest : List Card) (g' : Game),
      g.castle_deck.cards = c :: rest → revealNextEnemy g = some g' →
      g'.shield_value = 0 ∧ g'.total_damage = 0 ∧ g'.played_cards = []) ∧
    (∀ (sh : List Card → List Card) (g : Game) (idx : List Nat) (m : String)
      (g' : Game), g.current_enemy.isSome →
      playCards sh g idx = some (.error m, g') →
      g'.shield_value = g.shield_value ∧ g'.total_damage = g.total_damage ∧
        g'.played_cards = g.played_cards) ∧
    (∀ (sh : List Card → List Card) (g : Game) (idx : List Nat) (c : Card)
      (e : Enemy), validatePlay g idx = .ok () →
      selectedCards g idx = [c] → c.isJester = true →
      g.current_enemy = some e → g.shield_value + spadesRetro g < 256 →
      ∃ g', playCards sh g idx = some (.ok false, g') ∧
        g.shield_value ≤ g'.shield_value ∧
        g'.total_damage = g.total_damage ∧
        g'.played_cards = g.played_cards) ∧
    (∀ (sh : List Card → List Card) (g : Game) (idx : List Nat) (c0 : Card)
      (rest : List Card) (e : Enemy), validatePlay g idx = .ok () →
      selectedCards g idx = c0 :: rest → c0.isJester = false →
      g.current_enemy = some e →
      comboDamage e (c0 :: rest) ((List.map Card.value (c0 :: rest)).sum)
        < e.current_hp →
      g.shield_value + (List.map Card.value (c0 :: rest)).sum < 256 →
      g.total_damage +
        comboDamage e (c0 :: rest) ((List.map Card.value (c0 :: rest)).sum)
          < 256 →
      ∃ g', playCards sh g idx = some (.ok false, g') ∧
        g.shield_value ≤ g'.shield_value ∧
        g'.total_damage = g.total_damage +
          comboDamage e (c0 :: rest)
            ((List.map Card.value (c0 :: rest)).sum) ∧
        g'.played_cards = g.played_cards ++ (c0 :: rest)) ∧
    (∀ g : Game, (yieldTurn g).2.shield_value = g.shield_value ∧
      (yieldTurn g).2.total_damage = g.total_damage ∧
      (yieldTurn g).2.played_cards = g.played_cards) ∧
    (∀ g : Game, (enemyAttack g).2.shield_value = g.shield_value ∧
      (enemyAttack g).2.total_damage = g.total_damage ∧
      (enemyAttack g).2.played_cards = g.played_cards) ∧
    (∀ (g : Game) (idx : List Nat),
      (discardToSurvive g idx).2.shield_value = g.shield_value ∧
      (discardToSurvive g idx).2.total_damage = g.total_damage ∧
      (discardToSurvive g idx).2.played_cards = g.played_cards) ∧
    (∀ g : Game, (useJester g).2.shield_value = g.shield_value ∧
      (useJester g).2.total_damage = g.total_damage ∧
      (useJester g).2.played_cards = g.played_cards) := by
  refine ⟨?_, ?_, ?_, ?_, ?_, ?_, ?_, ?_⟩
  · intro g c rest g' hc h
    unfold revealNextEnemy Deck.draw at h
    simp only [hc] at h
    cases hn : Enemy.new? c with
    | none =>
      simp only [hn, Option.map_none'] at h
      cases h
    | some e =>
      simp only [hn, Option.map_some', Option.some.injEq] at h
      rw [← h]
      exact ⟨rfl, rfl, rfl⟩
  · intro sh g idx m g' hes h
    obtain ⟨e, he⟩ := Option.isSome_iff_exists.mp hes
    cases hv : validatePlay g idx with
    | error msg =>
      rw [playCards_validate_error sh g idx msg hv] at h
      simp only [Option.some.injEq, Prod.mk.injEq] at h
      rw [← h.2]
      exact ⟨rfl, rfl, rfl⟩
    | ok u =>
      cases u
      exact absurd h (playCards_ok_no_error sh g idx e m g' he hv)
  · intro sh g idx c e hok hsel hj he hov
    rw [playCards_jester sh g idx c e hok hsel hj he]
    refine ⟨_, rfl, ?_, rfl, rfl⟩
    show g.shield_value ≤
      (if e.card.suit = Suit.Spades ∧ 0 < spadesRetro g then
        u8add g.shield_value (spadesRetro g) else g.shield_value)
    split_ifs with hs
    · unfold u8add
      omega
    · exact Nat.le_refl _
  · intro sh g idx c0 rest e hok hsel hj he hnl hshov htov
    obtain ⟨g1, happ', -, hcast, hplay, htot, -, -, -, -, hsv⟩ :=
      applySuitPowers_ok sh
        { g with
            jester_played_this_turn := false
            player := (g.player.playHand idx).2 }
        (c0 :: rest) ((List.map Card.value (c0 :: rest)).sum) e (by exact he)
    obtain ⟨g1x, happx, hpc⟩ :=
      playCards_normal_nonlethal sh g idx c0 rest e hok hsel hj he hnl
    have heq : g1 = g1x := by
      rw [happ'] at happx
      injection happx with hx
    rw [← heq] at hpc
    refine ⟨_, hpc, ?_, ?_, ?_⟩
    · show g.shield_value ≤ g1.shield_value
      rw [hsv]
      rw [show ({ g with
          jester_played_this_turn := false
          player := (g.player.playHand idx).2 } : Game).shield_value
        = g.shield_value from rfl]
      have hple : suitPower (c0 :: rest) e .Spades
          ((List.map Card.value (c0 :: rest)).sum) ≤
          (List.map Card.value (c0 :: rest)).sum := by
        unfold suitPower
        split_ifs
        · exact Nat.le_refl _
        · exact Nat.zero_le _
      split_ifs
      · unfold u8add
        omega
      · exact Nat.le_refl _
    · show u8add g1.total_damage _ = _
      rw [htot, show ({ g with
          jester_played_this_turn := false
          player := (g.player.playHand idx).2 } : Game).total_damage
        = g.total_damage from rfl]
      unfold u8add
      omega
    · show g1.played_cards ++ (c0 :: rest) = _
      rw [hplay]
  · intro g; exact ⟨rfl, rfl, rfl⟩
  · intro g
    rw [enemyAttack_snd]
    exact ⟨rfl, rfl, rfl⟩
  · intro g idx
    cases he : g.current_enemy with
    | none => simp [discardToSurvive, he]
    | some e =>
      simp only [discardToSurvive, he]
      split_ifs <;> exact ⟨rfl, rfl, rfl⟩
  · intro g
    unfold useJester
    split_ifs <;> exact ⟨rfl, rfl, rfl⟩

/-- C8 witness: a reveal from a concrete mid-encounter state resets
shield 7, total damage 9 and one played card to 0 / 0 / none. -/
theorem C8_witness :
    (revealNextEnemy
        { gameWithHand [] with
            castle_deck := ⟨[⟨Suit.Hearts, Rank.Jack⟩]⟩
            shield_value := 7
            total_damage := 9
            played_cards := [⟨Suit.Hearts, Rank.Two⟩] }).map
        (fun g' => (g'.shield_value, g'.total_damage, g'.played_cards)) =
      some (0, 0, []) := by
  have h := C8_shield_monotonic_reset_on_reveal.1
    { gameWithHand [] with
        castle_deck := ⟨[⟨Suit.Hearts, Rank.Jack⟩]⟩
        shield_value := 7
        total_damage := 9
        played_cards := [⟨Suit.Hearts, Rank.Two⟩] }
    ⟨Suit.Hearts, Rank.Jack⟩ []
    { gameWithHand [] with
        castle_deck := ⟨[]⟩
        current_enemy := some ⟨⟨Suit.Hearts, Rank.Jack⟩, 20, 20, 10, false⟩ }
    rfl (by rfl)
  rw [show revealNextEnemy
      { gameWithHand [] with
          castle_deck := ⟨[⟨Suit.Hearts, Rank.Jack⟩]⟩
          shield_value := 7
          total_damage := 9
          played_cards := [⟨Suit.Hearts, Rank.Two⟩] } =
    some { gameWithHand [] with
        castle_deck := ⟨[]⟩
        current_enemy := some ⟨⟨Suit.Hearts, Rank.Jack⟩, 20, 20, 10, false⟩ }
    from rfl]
  simp only [Option.map_some']
  rw [h.1, h.2.1, h.2.2]
